import Mathlib

/-!
Verification of the vecdb-go write path, durability layer and query coordination.

The definitions below are a shallow embedding of the Go sources:
bytes are `Nat` values below 256, Go strings and byte slices are `List Nat`,
machine integers are `Nat`/`Int` with explicit `% 2 ^ w` where the Go code
truncates, and fallible Go functions return `Option` (a Go `error` return,
and also a Go slice-out-of-range panic inside `DecodeRecord`, are both
modelled as `none`).  External collaborators (`encoding/json`, the faiss
backend, `roaring` bitmaps) are modelled from the spec where noted; all the
repository's own control flow is translated statement by statement.
-/

set_option maxRecDepth 8000

namespace VecDB

/-- A Go string or byte slice: a sequence of bytes. -/
abbrev GoStr := List Nat

/-- Big-endian 4-byte encoding, as produced by Go `binary.Write(w, binary.BigEndian, uint32(n))`. -/
def u32be (n : Nat) : List Nat :=
  [n / 2 ^ 24 % 256, n / 2 ^ 16 % 256, n / 2 ^ 8 % 256, n % 256]

/-- Big-endian 8-byte encoding, as produced by Go `binary.Write(w, binary.BigEndian, uint64(n))`. -/
def u64be (n : Nat) : List Nat :=
  [n / 2 ^ 56 % 256, n / 2 ^ 48 % 256, n / 2 ^ 40 % 256, n / 2 ^ 32 % 256,
   n / 2 ^ 24 % 256, n / 2 ^ 16 % 256, n / 2 ^ 8 % 256, n % 256]

/-- Big-endian value of a byte list (Go `binary.BigEndian.Uint32` / `Uint64` on a slice). -/
def beVal (l : List Nat) : Nat := l.foldl (fun a b => a * 256 + b) 0

/-- Reading `n` bytes from the front of a stream (Go `io.ReadFull`); fails when
fewer than `n` bytes remain. -/
def readN (b : List Nat) (n : Nat) : Option (List Nat × List Nat) :=
  if n ≤ b.length then some (b.take n, b.drop n) else none

/-- Bounds-checked read of `n` bytes at offset `ofs` of a byte slice
(Go `dataBytes[offset : offset+n]`; an out-of-range slice panics in Go and is
modelled as `none`). -/
def readAt (d : List Nat) (ofs n : Nat) : Option (List Nat) :=
  if ofs + n ≤ d.length then some ((d.drop ofs).take n) else none

/-- Flip bit `k` of the byte at index `p`. -/
def flipAt (l : List Nat) (p k : Nat) : List Nat :=
  match l, p with
  | [], _ => []
  | b :: bs, 0 => (b ^^^ 2 ^ k) :: bs
  | b :: bs, q + 1 => b :: flipAt bs q k

/-- The reflected CRC-32 (IEEE) polynomial used by Go `hash/crc32`. -/
def crcPoly : Nat := 0xEDB88320

/-- One bit of the reflected CRC-32 update, least significant bit first,
as performed by Go `hash/crc32` for the IEEE polynomial. -/
def crcStep (c : Nat) (b : Bool) : Nat :=
  if (c.testBit 0).xor b then (c / 2) ^^^ crcPoly else c / 2

/-- Run the CRC register over a list of bits. -/
def crcBits (c : Nat) (bits : List Bool) : Nat := bits.foldl crcStep c

/-- The bits of one byte, least significant first, in the order CRC-32 consumes them. -/
def byteBits (b : Nat) : List Bool :=
  [b.testBit 0, b.testBit 1, b.testBit 2, b.testBit 3,
   b.testBit 4, b.testBit 5, b.testBit 6, b.testBit 7]

/-- All bits of a byte list in CRC consumption order. -/
def bytesBits (l : List Nat) : List Bool := l.flatMap byteBits

/-- Go `crc32.ChecksumIEEE`: initial register `0xFFFFFFFF`, final XOR `0xFFFFFFFF`. -/
def crc32 (l : List Nat) : Nat := crcBits 0xFFFFFFFF (bytesBits l) ^^^ 0xFFFFFFFF

/-- Model of a Go `any` value held in a doc or attribute map.  The commit
pipeline's type switch distinguishes exactly: `int`, `int64`, whole `float64`,
fractional `float64`, and everything else; strings are the representative
JSON-marshalable default case and `aOther` stands for values that
`json.Marshal` rejects (channels, functions, ...). -/
inductive AttrVal where
  | aInt (n : Int)
  | aInt64 (n : Int)
  | aFloatWhole (n : Int)
  | aFloatFrac
  | aStr (s : GoStr)
  | aOther
deriving DecidableEq

/-- Go `json.Unmarshal` into `any` types every JSON number as `float64`:
integer-typed values come back as (whole) floats. -/
def canonVal : AttrVal → AttrVal
  | .aInt n => .aFloatWhole n
  | .aInt64 n => .aFloatWhole n
  | v => v

/-- Pointwise canonicalization of a map, mirroring a marshal/unmarshal trip. -/
def canonMap (m : List (GoStr × AttrVal)) : List (GoStr × AttrVal) :=
  m.map (fun kv => (kv.1, canonVal kv.2))

/-- Two's-complement 8-byte encoding of a signed 64-bit integer. -/
def i64be (n : Int) : List Nat := u64be (n % (2 ^ 64 : Int)).toNat

/-- Decode an unsigned 64-bit value as a signed 64-bit integer. -/
def u64ToInt (m : Nat) : Int := if m < 2 ^ 63 then (m : Int) else (m : Int) - 2 ^ 64

/-- Modelled from the spec: `encoding/json` (external library).  Serialization
of one map value; whole numbers of every Go numeric type print identically,
which is what makes the unmarshal side return floats.  Fails on values
`json.Marshal` rejects. -/
def marshalVal : AttrVal → Option (List Nat)
  | .aInt n => some (1 :: i64be n)
  | .aInt64 n => some (1 :: i64be n)
  | .aFloatWhole n => some (1 :: i64be n)
  | .aFloatFrac => some [2]
  | .aStr s => some (3 :: (u32be s.length ++ s))
  | .aOther => none

/-- Modelled from the spec: `encoding/json` (external library).  An injective
length-prefixed serialization of a (flat) map. -/
def jsonMarshal : List (GoStr × AttrVal) → Option (List Nat)
  | [] => some []
  | (k, v) :: rest =>
    (marshalVal v).bind fun vb =>
      (jsonMarshal rest).map fun rb => u32be k.length ++ k ++ vb ++ rb

/-- Parse one serialized map value. -/
def unmarshalVal (b : List Nat) : Option (AttrVal × List Nat) :=
  match b with
  | [] => none
  | t :: rest =>
    if t = 1 then
      (readN rest 8).map fun p => (.aFloatWhole (u64ToInt (beVal p.1)), p.2)
    else if t = 2 then some (.aFloatFrac, rest)
    else if t = 3 then
      (readN rest 4).bind fun p1 =>
        (readN p1.2 (beVal p1.1)).map fun p2 => (.aStr p2.1, p2.2)
    else none

/-- Fuel-indexed map parser; the fuel only bounds the number of entries. -/
def unmarshalGo : Nat → List Nat → Option (List (GoStr × AttrVal))
  | _, [] => some []
  | 0, _ :: _ => none
  | fuel + 1, b =>
    (readN b 4).bind fun p1 =>
      (readN p1.2 (beVal p1.1)).bind fun p2 =>
        (unmarshalVal p2.2).bind fun pv =>
          (unmarshalGo fuel pv.2).map fun rest => (p2.1, pv.1) :: rest

/-- Modelled from the spec: `encoding/json` (external library).  Parsing a
serialized map back into a Go `map[string]any`; numbers come back as floats. -/
def jsonUnmarshal (b : List Nat) : Option (List (GoStr × AttrVal)) :=
  unmarshalGo (b.length + 1) b

/-- A WAL record (Go `persistence.WALRecord`).  `operation` is the Go
`WALOperation` int (`Insert = 0`, `Delete = 1`); `vector` holds the IEEE-754
bit patterns of the `float32` components (encode/decode move them bit-exactly
via `math.Float32frombits`). -/
structure WALRecord where
  logID : Nat
  version : GoStr
  operation : Nat
  vectorID : Nat
  vector : List Nat
  doc : List (GoStr × AttrVal)
  attributes : List (GoStr × AttrVal)
deriving DecidableEq

/-- Go `persistence.BinaryWALEncoder`: carries only the configured version string. -/
structure BinaryWALEncoder where
  version : GoStr
deriving DecidableEq

/-- The checksummed payload of a binary WAL record: everything between the
length prefix and the trailing CRC (Go `EncodeRecord`, bytes fed to the
`io.MultiWriter` with the CRC hasher). -/
def recPayload (r : WALRecord) (docBytes attrBytes : List Nat) : List Nat :=
  u64be r.logID ++ [r.operation % 256] ++ u64be r.vectorID ++
    u32be r.vector.length ++ r.vector.flatMap u32be ++
    u32be docBytes.length ++ docBytes ++ u32be attrBytes.length ++ attrBytes

/-- Go `BinaryWALEncoder.EncodeRecord`: marshal doc and attributes, write the
length prefix `recordSize - 4`, the checksummed payload, and the CRC-32.
The encoder's configured version is never consulted and the record's
`Version` field is never written. -/
def EncodeRecord (e : BinaryWALEncoder) (r : WALRecord) : Option (List Nat) :=
  match jsonMarshal r.doc, jsonMarshal r.attributes with
  | some docBytes, some attrBytes =>
    let payload := recPayload r docBytes attrBytes
    some (u32be (payload.length + 4) ++ payload ++ u32be (crc32 payload))
  | _, _ => none

/-- Parse `dim` big-endian 4-byte floats from a byte list (the Go decode loop
over `binary.BigEndian.Uint32` and `math.Float32frombits`, kept as raw bits). -/
def parseVec : Nat → List Nat → List Nat
  | 0, _ => []
  | d + 1, b => beVal (b.take 4) :: parseVec d (b.drop 4)

/-- Parse the checksummed payload of a binary WAL record (the field-reading
half of Go `DecodeRecord`).  Each Go slice expression is a bounds-checked
`readAt`; the constructed record's version is the decoder's configured
version, exactly as `record := &WALRecord{Version: e.version}` does. -/
def parsePayload (version : GoStr) (d : List Nat) : Option WALRecord :=
  (readAt d 0 8).bind fun lidB =>
    (readAt d 8 1).bind fun opB =>
      (readAt d 9 8).bind fun vidB =>
        (readAt d 17 4).bind fun dimB =>
          let dim := beVal dimB
          (readAt d 21 (4 * dim)).bind fun vecB =>
            (readAt d (21 + 4 * dim) 4).bind fun dlB =>
              let dl := beVal dlB
              (readAt d (25 + 4 * dim) dl).bind fun docB =>
                (jsonUnmarshal docB).bind fun doc =>
                  (readAt d (25 + 4 * dim + dl) 4).bind fun alB =>
                    let al := beVal alB
                    (readAt d (29 + 4 * dim + dl) al).bind fun attrB =>
                      (jsonUnmarshal attrB).map fun attrs =>
                        { logID := beVal lidB, version := version,
                          operation := opB.headD 0, vectorID := beVal vidB,
                          vector := parseVec dim vecB, doc := doc,
                          attributes := attrs }

/-- Go `BinaryWALEncoder.DecodeRecord`: read the 4-byte record length, read
that many bytes, split off the trailing 4-byte checksum, verify the CRC, then
parse the fields.  Returns the record and the unconsumed stream; every error
(EOF, short read, record too short, checksum mismatch, parse failure) is
`none`. -/
def DecodeRecord (e : BinaryWALEncoder) (stream : List Nat) :
    Option (WALRecord × List Nat) :=
  (readN stream 4).bind fun p1 =>
    (readN p1.2 (beVal p1.1)).bind fun p2 =>
      let recordData := p2.1
      if recordData.length < 4 then none
      else
        let dataBytes := recordData.take (recordData.length - 4)
        let checksumBytes := recordData.drop (recordData.length - 4)
        if beVal checksumBytes = crc32 dataBytes then
          (parsePayload e.version dataBytes).map fun r => (r, p2.2)
        else none

/-- Fuel-indexed sequential record scan; decoding stops at the first failure,
which is how both `initCounter` and `Restore` treat EOF and corruption alike. -/
def scanGo (e : BinaryWALEncoder) : Nat → List Nat → List WALRecord
  | 0, _ => []
  | fuel + 1, bytes =>
    match DecodeRecord e bytes with
    | some (r, rest) => r :: scanGo e fuel rest
    | none => []

/-- Decode the longest valid prefix of a WAL file (the read loops of Go
`initCounter` and `Restore`). -/
def scanRecords (e : BinaryWALEncoder) (bytes : List Nat) : List WALRecord :=
  scanGo e (bytes.length + 1) bytes

/-- Go `Persistence.initCounter`: an empty file starts the counter at 0;
otherwise the counter is the maximum log ID among the decodable records. -/
def initCounter (e : BinaryWALEncoder) (fileBytes : List Nat) : Nat :=
  if fileBytes.length = 0 then 0
  else (scanRecords e fileBytes).foldl (fun m r => max m r.logID) 0

/-- Association-list lookup, the model of Go map indexing (`m[k]` with the
`, exists` form).  Go maps have unique keys, so the first match is the match. -/
def alGet {α β : Type} [DecidableEq α] (l : List (α × β)) (k : α) : Option β :=
  (l.find? (fun p => p.1 = k)).map (·.2)

/-- Association-list update, the model of Go map assignment `m[k] = v` (with
`v` computed from the previous binding when present). -/
def alUpdate {α β : Type} [DecidableEq α] (l : List (α × β)) (k : α)
    (f : Option β → β) : List (α × β) :=
  match l with
  | [] => [(k, f none)]
  | (k', v) :: rest =>
    if k' = k then (k', f (some v)) :: rest else (k', v) :: alUpdate rest k f

/-- Association-list deletion, the model of Go `delete(m, k)` (keys are unique
in a Go map, so removing every occurrence is the same operation). -/
def alErase {α β : Type} [DecidableEq α] (l : List (α × β)) (k : α) :
    List (α × β) :=
  l.filter (fun p => ¬ p.1 = k)

/-- A roaring bitmap of 32-bit identifiers, modelled by its set of members. -/
abbrev Bitmap := Finset ℕ

/-- Go `filter.FilterOp`. -/
inductive FilterOp where
  | Equal
  | NotEqual
deriving DecidableEq

/-- Go `filter.IntFilterInput`. -/
structure IntFilterInput where
  Field : GoStr
  Op : FilterOp
  Target : Int
deriving DecidableEq

/-- Go `filter.IntFilterIndex`: field name → value → bitmap of IDs. -/
structure IntFilterIndex where
  intFieldFilters : List (GoStr × List (Int × Bitmap))
deriving DecidableEq

/-- Go `NewIntFilterIndex`. -/
def NewIntFilterIndex : IntFilterIndex := ⟨[]⟩

/-- Go `IntFilterIndex.Upsert`: create the nested maps and the bitmap on
demand and add the ID; `bitmap.Add(uint32(id))` truncates to 32 bits. -/
def IntFilterIndex.Upsert (idx : IntFilterIndex) (field : GoStr) (value : Int)
    (id : Nat) : IntFilterIndex :=
  ⟨alUpdate idx.intFieldFilters field fun inner =>
    alUpdate (inner.getD []) value fun bm => insert (id % 2 ^ 32) (bm.getD ∅)⟩

/-- Go `IntFilterIndex.Remove`: missing field or value is a no-op; otherwise
remove `uint32(id)` from the bitmap and drop the entry if it became empty. -/
def IntFilterIndex.Remove (idx : IntFilterIndex) (field : GoStr) (value : Int)
    (id : Nat) : IntFilterIndex :=
  match alGet idx.intFieldFilters field with
  | none => idx
  | some inner =>
    match alGet inner value with
    | none => idx
    | some bm =>
      if bm.erase (id % 2 ^ 32) = ∅ then
        ⟨alUpdate idx.intFieldFilters field fun _ => alErase inner value⟩
      else
        ⟨alUpdate idx.intFieldFilters field fun _ =>
          alUpdate inner value fun _ => bm.erase (id % 2 ^ 32)⟩

/-- Go `IntFilterIndex.Apply`: for `Equal`, return a clone of the seed when
the field or the target value is absent, else `roaring.Or(seed, bitmap)`; for
`NotEqual`, union every other value's bitmap into a clone of the seed.
`roaring.Or` and `Clone` allocate, so the seed bitmap is never mutated —
in this functional model every result is a fresh value by construction. -/
def IntFilterIndex.Apply (idx : IntFilterIndex) (input : IntFilterInput)
    (bitmap : Bitmap) : Bitmap :=
  match input.Op with
  | .Equal =>
    match alGet idx.intFieldFilters input.Field with
    | none => bitmap
    | some valueToMap =>
      match alGet valueToMap input.Target with
      | none => bitmap
      | some curBitmap => bitmap ∪ curBitmap
  | .NotEqual =>
    match alGet idx.intFieldFilters input.Field with
    | none => bitmap
    | some valueToMap =>
      valueToMap.foldl
        (fun acc p => if p.1 = input.Target then acc else acc ∪ p.2) bitmap

/-- Go `common.ToInt64` (internal/common/utils.go).  The Go switch only
reassigns its own parameter (`intValue = int64(v)`) and then unconditionally
executes `return 0, false`, so every call reports failure. -/
def ToInt64 : AttrVal → Int × Bool
  | .aInt _ => (0, false)
  | .aInt64 _ => (0, false)
  | .aFloatWhole _ => (0, false)
  | .aFloatFrac => (0, false)
  | .aStr _ => (0, false)
  | .aOther => (0, false)

/-- The scalar KV store restricted to what the pipeline touches: the `docs`
namespace keyed by vector ID (Go keys are `scalar.EncodeID(id)`, an injective
8-byte big-endian encoding, so the `Nat` id itself serves as the key) plus
the `__id_max__` allocation ceiling. -/
structure ScalarStorage where
  docs : List (Nat × Option (List Nat))
  idMax : Nat
deriving DecidableEq

/-- Go `scalarStorage.Put(NamespaceDocs, key, value)`; a `nil` value is the
best-effort delete marker written by rollback. -/
def scalarPut (s : ScalarStorage) (key : Nat) (v : Option (List Nat)) :
    ScalarStorage :=
  { s with docs := alUpdate s.docs key fun _ => v }

/-- The bytes Phase A stores for a record: the doc merged with the `id` and
`attributes` entries, JSON-encoded (Go builds `doc["id"]`, `doc["attributes"]`
and calls `json.Marshal`; the marshal fails exactly when the doc or the
attributes contain an unmarshalable value). -/
def mergedDocBytes (r : WALRecord) : Option (List Nat) :=
  (jsonMarshal r.doc).bind fun db =>
    (jsonMarshal r.attributes).map fun ab => u64be r.vectorID ++ db ++ ab

/-- Errors surfaced by the commit pipeline, by failure site. -/
inductive SyncErr where
  | flushFail
  | fsyncFail
  | marshalFail (vid : Nat)
  | putFail (vid : Nat)
  | attrTypeFail
  | insertFail
deriving DecidableEq

/-- Fault injection for the external effects of the pipeline: WAL buffer
flush, file fsync, scalar KV puts (by key), and the vector-index insert. -/
structure SyncEnv where
  flushFails : Bool
  fsyncFails : Bool
  putFails : Nat → Bool
  insertFails : Bool

/-- Go `persistence.WALRecordData`, as built by Phase B for rollback. -/
structure WALRecordData where
  VectorID : Nat
  Attributes : List (GoStr × AttrVal)
deriving DecidableEq

/-- Go `Persistence.rollbackScalar`: best-effort `Put(docs, key, nil)` for
every applied ID, ignoring errors. -/
def rollbackScalar (env : SyncEnv) (s : ScalarStorage) (ids : List Nat) :
    ScalarStorage :=
  ids.foldl (fun st id => if env.putFails id then st else scalarPut st id none) s

/-- Go `Persistence.rollbackFilter` (the encoder-era version in the
persistence file that uses `common.ToInt64`): for each recorded attribute,
convert with `ToInt64` and skip the `Remove` when the conversion reports
failure. -/
def rollbackFilter (idx : IntFilterIndex) (records : List WALRecordData) :
    IntFilterIndex :=
  records.foldl
    (fun idx rec =>
      rec.Attributes.foldl
        (fun idx kv =>
          match ToInt64 kv.2 with
          | (iv, true) => idx.Remove kv.1 iv rec.VectorID
          | (_, false) => idx)
        idx)
    idx

/-- The Phase B type switch on an attribute value: `int` and `int64` pass
through, a `float64` passes iff it is whole, everything else fails the
commit. -/
def coerceAttr : AttrVal → Option Int
  | .aInt n => some n
  | .aInt64 n => some n
  | .aFloatWhole n => some n
  | .aFloatFrac => none
  | .aStr _ => none
  | .aOther => none

/-- Phase A of `syncLocked`: apply each pending insert to scalar storage,
tracking applied IDs; on a marshal or put failure, roll the applied IDs back
and stop.  Returns the scalar state, the applied-ID list, and the error. -/
def phase1 (env : SyncEnv) :
    List WALRecord → ScalarStorage → List Nat →
    ScalarStorage × List Nat × Option SyncErr
  | [], s, applied => (s, applied, none)
  | r :: rest, s, applied =>
    if r.operation = 0 then
      match mergedDocBytes r with
      | none => (rollbackScalar env s applied, applied, some (.marshalFail r.vectorID))
      | some bytes =>
        if env.putFails r.vectorID then
          (rollbackScalar env s applied, applied, some (.putFail r.vectorID))
        else
          phase1 env rest (scalarPut s r.vectorID (some bytes)) (applied ++ [r.vectorID])
    else phase1 env rest s applied

/-- The inner Phase B loop over one record's attributes: coerce and upsert
one by one; a coercion failure aborts mid-record, leaving the already-made
upserts in the index (exactly as the Go loop does). -/
def coerceFold (vid : Nat) :
    List (GoStr × AttrVal) → IntFilterIndex → IntFilterIndex × Option SyncErr
  | [], idx => (idx, none)
  | (k, v) :: rest, idx =>
    match coerceAttr v with
    | none => (idx, some .attrTypeFail)
    | some iv => coerceFold vid rest (idx.Upsert k iv vid)

/-- Phase B of `syncLocked`: for each pending insert with non-empty
attributes, coerce and upsert every attribute, appending a `WALRecordData`
to the applied list only after the whole record succeeded. -/
def phase2 :
    List WALRecord → IntFilterIndex → List WALRecordData →
    IntFilterIndex × List WALRecordData × Option SyncErr
  | [], idx, applied => (idx, applied, none)
  | r :: rest, idx, applied =>
    if r.operation = 0 ∧ r.attributes.length > 0 then
      match coerceFold r.vectorID r.attributes idx with
      | (idx', some e) => (idx', applied, some e)
      | (idx', none) =>
        phase2 rest idx' (applied ++ [⟨r.vectorID, r.attributes⟩])
    else phase2 rest idx applied

/-- The database state threaded through the persistence layer: the on-disk
WAL bytes, the buffered-writer bytes not yet flushed, the atomic log-ID
counter, the pending queue, and the three indexes. -/
structure DBState where
  fileBytes : List Nat
  bufBytes : List Nat
  counter : Nat
  pendingLogs : List WALRecord
  scalar : ScalarStorage
  filterIndex : IntFilterIndex
  vectorIndex : List (Int × List Nat)
deriving DecidableEq

/-- The pending records with the `Insert` operation, which Phase C gathers
into one matrix/label batch. -/
def pendingInserts (l : List WALRecord) : List WALRecord :=
  l.filter (fun r => r.operation = 0)

/-- The three application phases of `syncLocked`, entered after the WAL was
flushed and fsynced: Phase A (scalar), Phase B (filter), then one
vector-index insert; a Phase C failure rolls back Phases A and B; the pending
queue is cleared only on success. -/
def syncPhases (s : DBState) (env : SyncEnv) : DBState × Option SyncErr :=
  match phase1 env s.pendingLogs s.scalar [] with
  | (sc, _, some e) => ({ s with scalar := sc }, some e)
  | (sc, appliedScalar, none) =>
    match phase2 s.pendingLogs s.filterIndex [] with
    | (fi, appliedFilter, some e) =>
      ({ s with scalar := rollbackScalar env sc appliedScalar,
                filterIndex := rollbackFilter fi appliedFilter }, some e)
    | (fi, appliedFilter, none) =>
      if (pendingInserts s.pendingLogs).length > 0 then
        if env.insertFails then
          ({ s with scalar := rollbackScalar env sc appliedScalar,
                    filterIndex := rollbackFilter fi appliedFilter },
           some .insertFail)
        else
          ({ s with scalar := sc, filterIndex := fi,
                    vectorIndex := s.vectorIndex ++
                      (pendingInserts s.pendingLogs).map
                        (fun r => (u64ToInt (r.vectorID % 2 ^ 64), r.vector)),
                    pendingLogs := [] }, none)
      else
        ({ s with scalar := sc, filterIndex := fi, pendingLogs := [] }, none)

/-- Go `Persistence.syncLocked`: nothing pending is an immediate success;
flush the buffered writer and fsync the file first (durability), then run the
three phases. -/
def syncLocked (s : DBState) (env : SyncEnv) : DBState × Option SyncErr :=
  if s.pendingLogs.length = 0 then (s, none)
  else if env.flushFails then (s, some .flushFail)
  else if env.fsyncFails then
    ({ s with fileBytes := s.fileBytes ++ s.bufBytes, bufBytes := [] }, some .fsyncFail)
  else
    syncPhases { s with fileBytes := s.fileBytes ++ s.bufBytes, bufBytes := [] } env

/-- The `persistence.WALVersion` constant, the bytes of the string v1. -/
def WALVersion : GoStr := [118, 49]

/-- The arguments of one WAL write. -/
structure WriteArgs where
  vectorID : Nat
  vector : List Nat
  doc : List (GoStr × AttrVal)
  attributes : List (GoStr × AttrVal)
deriving DecidableEq

/-- Errors returned by `Persistence.Write`. -/
inductive WriteErr where
  | encodeFail
  | syncErr (e : SyncErr)
deriving DecidableEq

/-- The record `Persistence.Write` builds: the freshly incremented counter
value as log ID, the persistence version, the `Insert` operation, and the
caller's data. -/
def writeRecord (s : DBState) (a : WriteArgs) : WALRecord :=
  { logID := s.counter + 1, version := WALVersion, operation := 0,
    vectorID := a.vectorID, vector := a.vector, doc := a.doc,
    attributes := a.attributes }

/-- The state after a successful encode inside `Write`: counter incremented,
encoded bytes appended to the buffered writer, record appended to the pending
queue. -/
def writeState (s : DBState) (a : WriteArgs) (bs : List Nat) : DBState :=
  { s with counter := s.counter + 1, bufBytes := s.bufBytes ++ bs,
           pendingLogs := s.pendingLogs ++ [writeRecord s a] }

/-- Go `Persistence.Write`: under the lock, increment the counter first, build
the record with the new log ID, encode it through the buffered writer, append
it to the pending queue, and in eager mode run `syncLocked` before
returning.  A failed encode returns after the counter was already
incremented. -/
def Write (s : DBState) (env : SyncEnv) (a : WriteArgs) (eager : Bool) :
    DBState × Option WriteErr :=
  match EncodeRecord ⟨WALVersion⟩ (writeRecord s a) with
  | none => ({ s with counter := s.counter + 1 }, some .encodeFail)
  | some bs =>
    if eager then
      match syncLocked (writeState s a bs) env with
      | (s', none) => (s', none)
      | (s', some e) => (s', some (.syncErr e))
    else (writeState s a bs, none)

/-- A sequence of non-eager WAL writes (Go `WriteOnly` behaviour of `Write`
with `eager = false`). -/
def writeSeq (env : SyncEnv) (s : DBState) : List WriteArgs → DBState
  | [] => s
  | a :: rest => writeSeq env (Write s env a false).1 rest

/-- Go `Persistence.Restore`: an empty file is a no-op; otherwise decode the
longest valid prefix; when no record decodes, return success with everything
untouched; otherwise overwrite the pending queue with the decoded records and
run the commit pipeline, and only on commit success truncate the WAL file
(`truncateWAL` flushes, closes, truncates to zero bytes and reopens; its own
errors are logged and ignored, modelled here as a fault-free truncate). -/
def Restore (s : DBState) (env : SyncEnv) (e : BinaryWALEncoder) :
    DBState × Option SyncErr :=
  if s.fileBytes.length = 0 then (s, none)
  else if (scanRecords e s.fileBytes).length = 0 then (s, none)
  else
    match syncLocked { s with pendingLogs := scanRecords e s.fileBytes } env with
    | (s2, some err) => (s2, some err)
    | (s2, none) => ({ s2 with fileBytes := [], bufBytes := [] }, none)

/-- The field named by a failed validation (Go returns the strings docs /
attributes). -/
inductive FieldName where
  | docs
  | attributes
deriving DecidableEq

/-- Go `math.Matrix32`: a row-major `rows × cols` block of float32 bit
patterns. -/
structure Matrix32 where
  Rows : Nat
  Cols : Nat
  Data : List Nat
deriving DecidableEq

/-- Go `Matrix32.At(i, j) = Data[i*Cols + j]`. -/
def Matrix32.At (m : Matrix32) (i j : Nat) : Nat := m.Data.getD (i * m.Cols + j) 0

/-- Go `common.VdbUpsertArgs` (vectors, docs, attributes). -/
structure VdbUpsertArgs where
  Vectors : Matrix32
  Docs : List (List (GoStr × AttrVal))
  Attributes : List (List (GoStr × AttrVal))
deriving DecidableEq

/-- Go `VdbUpsertArgs.Validate` (internal/common/params.go): reject when
`len(Docs) != Rows`; reject when `len(Attributes) > 0 && len(Attributes) !=
Rows`; otherwise accept.  Returns the offending field with the got/expected
lengths, or `none` on success. -/
def Validate (args : VdbUpsertArgs) : Option (FieldName × Nat × Nat) :=
  if args.Docs.length ≠ args.Vectors.Rows then
    some (.docs, args.Docs.length, args.Vectors.Rows)
  else if args.Attributes.length > 0 ∧ args.Attributes.length ≠ args.Vectors.Rows then
    some (.attributes, args.Attributes.length, args.Vectors.Rows)
  else none

/-- Errors returned by `VectorDatabase.Upsert`. -/
inductive VdbErr where
  | validation (f : FieldName) (got expected : Nat)
  | dimMismatch (got expected : Nat)
  | walErr (id : Nat) (e : WriteErr)
deriving DecidableEq

/-- Row `i` of the vectors matrix, extracted entry by entry as the Go loop
does. -/
def rowVector (m : Matrix32) (i : Nat) : List Nat :=
  (List.range m.Cols).map (fun j => m.At i j)

/-- The per-row loop of `VectorDatabase.Upsert`: each row is written to the
WAL eagerly; the first error stops the loop and is returned, earlier rows
stay applied. -/
def upsertLoop (env : SyncEnv) (args : VdbUpsertArgs)
    (attrs : List (List (GoStr × AttrVal))) (idBase : Nat) :
    List Nat → DBState → DBState × Option VdbErr
  | [], s => (s, none)
  | i :: rest, s =>
    match Write s env
        ⟨idBase + 1 + i, rowVector args.Vectors i,
         if i < args.Docs.length then args.Docs.getD i [] else [],
         attrs.getD i []⟩ true with
    | (s', some e) => (s', some (.walErr (idBase + 1 + i) e))
    | (s', none) => upsertLoop env args attrs idBase rest s'

/-- Go `VectorDatabase.Upsert`: validate the argument lengths, check the
vector dimension against the configured one, allocate `Rows` consecutive IDs
via the scalar store's `__id_max__` counter, fill in empty attribute maps
when none were given, and write each row eagerly to the WAL. -/
def Upsert (s : DBState) (env : SyncEnv) (dim : Nat) (args : VdbUpsertArgs) :
    DBState × Option VdbErr :=
  match Validate args with
  | some (f, got, expected) => (s, some (.validation f got expected))
  | none =>
    if args.Vectors.Cols ≠ dim then
      (s, some (.dimMismatch args.Vectors.Cols dim))
    else
      upsertLoop env args
        (if args.Attributes.length = 0 then List.replicate args.Vectors.Rows []
         else args.Attributes)
        s.scalar.idMax (List.range args.Vectors.Rows)
        { s with scalar := { s.scalar with idMax := s.scalar.idMax + args.Vectors.Rows } }

/-- A search request as the index wrappers see it (Go `index.SearchQuery`):
the query vector and the optional identifier restriction.  The model search
space uses exact integer arithmetic, so query vectors are `List Int`. -/
structure SearchQueryM where
  vector : List Int
  idFilter : Option Bitmap

/-- Go `index.SearchResult`. -/
structure SearchResultM where
  distances : List Int
  labels : List Int
deriving DecidableEq

/-- Squared L2 distance over exact integers. -/
def sqDist (a b : List Int) : Int :=
  ((a.zip b).map (fun p => (p.1 - p.2) * (p.1 - p.2))).foldl (· + ·) 0

/-- Stable insertion into a list sorted by distance (first component). -/
def insDist (x : Int × Int) : List (Int × Int) → List (Int × Int)
  | [] => [x]
  | y :: ys => if x.1 < y.1 then x :: y :: ys else y :: insDist x ys

/-- Stable sort by distance. -/
def sortDist : List (Int × Int) → List (Int × Int)
  | [] => []
  | x :: xs => insDist x (sortDist xs)

/-- Go `IdFilter.AsSelector`: enumerate the bitmap into an int64 batch
selector; a faiss batch selector admits exactly the listed labels, so the
selector is its set of admitted labels. -/
def AsSelector (f : Bitmap) : Bitmap := f

/-- Whether a faiss batch selector admits a label: the label is one of the
(non-negative, 32-bit) enumerated identifiers. -/
def selAdmits (sel : Bitmap) (label : Int) : Bool :=
  0 ≤ label ∧ label.toNat ∈ sel

/-- The `IdFilter.IsEmpty` predicate used by the flat wrapper: whether the
underlying bitmap is empty (its definition is not among the sources, but
`roaring.Bitmap.IsEmpty` leaves only this reading). -/
def IdFilterIsEmpty (f : Bitmap) : Bool := f = ∅

/-- Modelled from the spec: the faiss backend (external library).  A k-NN
search over the stored `(label, vector)` pairs; when a selector is present
only the selected labels are candidates (restriction during traversal); when
fewer than `k` candidates exist the result is padded with the invalid label
`-1`. -/
def faissSearch (entries : List (Int × List Int)) (q : List Int) (k : Nat)
    (allowed : Option Bitmap) : SearchResultM :=
  let cands :=
    match allowed with
    | none => entries
    | some sel => entries.filter (fun e => selAdmits sel e.1)
  let sorted := sortDist (cands.map (fun e => (sqDist e.2 q, e.1)))
  let top := sorted.take k
  let pad := k - top.length
  ⟨top.map (·.1) ++ List.replicate pad (-1), top.map (·.2) ++ List.replicate pad (-1)⟩

/-- Go `HNSWIndex.Search`: cap `k` to `ntotal`; `k = 0` returns the empty
result; a non-nil IdFilter — even an empty one — is converted to a selector
and the restricted search path is taken. -/
def HNSWSearch (entries : List (Int × List Int)) (query : SearchQueryM)
    (k : Nat) : SearchResultM :=
  let ntotal := entries.length
  let k := if k > ntotal then ntotal else k
  if k = 0 then ⟨[], []⟩
  else
    match query.idFilter with
    | some f => faissSearch entries query.vector k (some (AsSelector f))
    | none => faissSearch entries query.vector k none

/-- Go `FlatIndex.Search`: identical to the HNSW wrapper except that the
restricted path is taken only when the IdFilter is non-nil and non-empty. -/
def FlatSearch (entries : List (Int × List Int)) (query : SearchQueryM)
    (k : Nat) : SearchResultM :=
  let ntotal := entries.length
  let k := if k > ntotal then ntotal else k
  if k = 0 then ⟨[], []⟩
  else
    match query.idFilter with
    | some f =>
      if IdFilterIsEmpty f then faissSearch entries query.vector k none
      else faissSearch entries query.vector k (some (AsSelector f))
    | none => faissSearch entries query.vector k none

/-- The set of identifiers the filter index currently holds under a
field/value pair (`∅` when the field or the value is absent). -/
def getSet (idx : IntFilterIndex) (f : GoStr) (v : Int) : Bitmap :=
  ((alGet idx.intFieldFilters f).bind fun inner => alGet inner v).getD ∅

/-- Whether an `Upsert` result is one of the two input-validation errors
(argument-length validation or dimension mismatch). -/
def isValidationErr : Option VdbErr → Bool
  | some (.validation _ _ _) => true
  | some (.dimMismatch _ _) => true
  | _ => false

/-- A filter-index command, for stating properties over operation sequences. -/
inductive FOp where
  | up (f : GoStr) (v : Int) (id : Nat)
  | rm (f : GoStr) (v : Int) (id : Nat)
deriving DecidableEq

/-- Run a sequence of upserts and removes against a filter index. -/
def applyOps (ops : List FOp) (idx : IntFilterIndex) : IntFilterIndex :=
  ops.foldl
    (fun idx op =>
      match op with
      | .up f v id => idx.Upsert f v id
      | .rm f v id => idx.Remove f v id)
    idx

/-- The identifier carried by a filter-index command. -/
def opId : FOp → Nat
  | .up _ _ id => id
  | .rm _ _ id => id

/-- One step of the specification-side set, 32-bit truncated as the bitmaps
store identifiers. -/
def specStepT (f : GoStr) (v : Int) (s : Bitmap) : FOp → Bitmap
  | .up f' v' id => if f' = f ∧ v' = v then insert (id % 2 ^ 32) s else s
  | .rm f' v' id => if f' = f ∧ v' = v then s.erase (id % 2 ^ 32) else s

/-- One step of the specification-side set over untruncated identifiers. -/
def specStep (f : GoStr) (v : Int) (s : Bitmap) : FOp → Bitmap
  | .up f' v' id => if f' = f ∧ v' = v then insert id s else s
  | .rm f' v' id => if f' = f ∧ v' = v then s.erase id else s

/-- The identifiers upserted under `(f, v)` and not since removed, read off
the operation sequence directly (32-bit truncated, as the bitmaps store). -/
def specSetT (f : GoStr) (v : Int) (ops : List FOp) (init : Bitmap) : Bitmap :=
  ops.foldl (specStepT f v) init

/-- The identifiers upserted under `(f, v)` and not since removed. -/
def specSet (f : GoStr) (v : Int) (ops : List FOp) : Bitmap :=
  ops.foldl (specStep f v) ∅

/-- The fault-free effect environment. -/
def env0 : SyncEnv := ⟨false, false, fun _ => false, false⟩

/-- The environment in which only the vector-index insert fails. -/
def envInsertFail : SyncEnv := ⟨false, false, fun _ => false, true⟩

/-- An empty scalar store. -/
def emptyScalar : ScalarStorage := ⟨[], 0⟩

/-- A freshly created database state. -/
def emptyState : DBState := ⟨[], [], 0, [], emptyScalar, ⟨[]⟩, []⟩

/-- The production encoder, configured with `WALVersion`. -/
def enc1 : BinaryWALEncoder := ⟨WALVersion⟩

/-- The bytes of the attribute key cat. -/
def catKey : GoStr := [99, 97, 116]

/-- A pending insert carrying one integer attribute. -/
def c1rec : WALRecord :=
  { logID := 1, version := WALVersion, operation := 0, vectorID := 7,
    vector := [5], doc := [], attributes := [(catKey, .aInt64 1)] }

/-- A database state with `c1rec` pending. -/
def c1state : DBState := { emptyState with counter := 1, pendingLogs := [c1rec] }

/-- An upsert batch with one row, matching dimension 3, and no docs. -/
def c4args : VdbUpsertArgs := { Vectors := ⟨1, 3, [0, 0, 0]⟩, Docs := [], Attributes := [] }

/-- A one-vector search space: label 1 at the origin. -/
def c5entries : List (Int × List Int) := [(1, [0])]

/-- A database state whose WAL file holds a single byte, which is not a
decodable record (reading the 4-byte length prefix hits EOF mid-read). -/
def c3state : DBState := { emptyState with fileBytes := [0] }

/-- A well-formed record with no attributes, for exercising a successful
restore. -/
def c3wrec : WALRecord :=
  { logID := 1, version := WALVersion, operation := 0, vectorID := 1,
    vector := [5], doc := [], attributes := [] }

/-- A database state whose WAL file holds exactly the encoding of `c3wrec`. -/
def c3wState : DBState :=
  { emptyState with fileBytes := (EncodeRecord enc1 c3wrec).getD [] }

/-- A write whose doc contains a value `json.Marshal` rejects, so encoding the
WAL record fails. -/
def c6args : WriteArgs := ⟨1, [], [([107], .aOther)], []⟩

/-- A record whose `Version` field (the bytes of v0) differs from the
encoder's configured version. -/
def c2rec : WALRecord :=
  { logID := 5, version := [118, 48], operation := 0, vectorID := 9,
    vector := [], doc := [], attributes := [] }

/-- A record carrying the encoder's own version and one string attribute
(strings survive the JSON trip unchanged). -/
def c2wrec : WALRecord :=
  { logID := 5, version := WALVersion, operation := 1, vectorID := 9,
    vector := [7], doc := [], attributes := [(catKey, .aStr [120])] }

/-- A small well-formed record for exercising corruption of its encoding. -/
def c7rec : WALRecord :=
  { logID := 2, version := WALVersion, operation := 0, vectorID := 3,
    vector := [1], doc := [], attributes := [] }

/-- The machine-integer domain of one attribute value: integers fit in a
signed 64-bit word, string lengths in an unsigned 32-bit word. -/
def valWF : AttrVal → Prop
  | .aInt n => -(2 ^ 63) ≤ n ∧ n < 2 ^ 63
  | .aInt64 n => -(2 ^ 63) ≤ n ∧ n < 2 ^ 63
  | .aFloatWhole n => -(2 ^ 63) ≤ n ∧ n < 2 ^ 63
  | .aFloatFrac => True
  | .aStr s => s.length < 2 ^ 32
  | .aOther => True

/-- The machine-integer domain of a doc or attribute map. -/
def mapWF (m : List (GoStr × AttrVal)) : Prop :=
  ∀ kv ∈ m, kv.1.length < 2 ^ 32 ∧ valWF kv.2

/-- The machine-integer domain of a WAL record: the Go struct's field types
(`uint64` ids, a byte-sized operation, `float32` bit patterns). -/
def WFRecord (r : WALRecord) : Prop :=
  r.logID < 2 ^ 64 ∧ r.vectorID < 2 ^ 64 ∧ r.operation < 256 ∧
  (∀ x ∈ r.vector, x < 2 ^ 32) ∧ mapWF r.doc ∧ mapWF r.attributes

/-- A map already in the canonical JSON-decoded form (every value as Go's
`json.Unmarshal` would type it). -/
def selfCanon (m : List (GoStr × AttrVal)) : Prop := canonMap m = m

/-- `ToInt64` reports failure on every input. -/
theorem ToInt64_eq_false (v : AttrVal) : ToInt64 v = (0, false) := by
  cases v <;> rfl

/-- `rollbackFilter` never changes the filter index: every conversion fails,
so every `Remove` is skipped. -/
theorem rollbackFilter_eq (idx : IntFilterIndex) (records : List WALRecordData) :
    rollbackFilter idx records = idx := by
  induction records generalizing idx with
  | nil => rfl
  | cons rec rest ih =>
    have hAttr : ∀ (attrs : List (GoStr × AttrVal)) (i : IntFilterIndex),
        attrs.foldl
          (fun i kv =>
            match ToInt64 kv.2 with
            | (iv, true) => i.Remove kv.1 iv rec.VectorID
            | (_, false) => i) i = i := by
      intro attrs
      induction attrs with
      | nil => intro i; rfl
      | cons kv rest ih2 =>
        intro i
        simp only [List.foldl_cons, ToInt64_eq_false kv.2]
        exact ih2 i
    simp only [rollbackFilter, List.foldl_cons] at *
    rw [hAttr rec.Attributes idx]
    exact ih idx

/-- The phase runner clears the pending queue exactly on success and leaves
it untouched on every error path. -/
theorem syncPhases_pending (s : DBState) (env : SyncEnv) :
    ((syncPhases s env).2 = none → (syncPhases s env).1.pendingLogs = []) ∧
    ((syncPhases s env).2 ≠ none → (syncPhases s env).1.pendingLogs = s.pendingLogs) := by
  unfold syncPhases
  repeat' split
  all_goals
    first
      | exact ⟨fun h => Option.noConfusion h, fun _ => rfl⟩
      | exact ⟨fun _ => rfl, fun h => absurd rfl h⟩

/-- `syncLocked` clears the pending queue exactly on success; every error
path leaves it untouched. -/
theorem syncLocked_pending (s : DBState) (env : SyncEnv) :
    ((syncLocked s env).2 = none → (syncLocked s env).1.pendingLogs = []) ∧
    ((syncLocked s env).2 ≠ none → (syncLocked s env).1.pendingLogs = s.pendingLogs) := by
  unfold syncLocked
  split
  next h0 => exact ⟨fun _ => List.length_eq_zero.mp h0, fun _ => rfl⟩
  next h0 =>
    split
    next => exact ⟨fun h => Option.noConfusion h, fun _ => rfl⟩
    next =>
      split
      next => exact ⟨fun h => Option.noConfusion h, fun _ => rfl⟩
      next => exact syncPhases_pending _ env

/-- C9: the commit pipeline (`Sync`/`syncLocked`) clears the pending-records
queue exactly when it returns success; whenever it returns an error (WAL
flush/fsync failure, scalar marshal/put failure, attribute coercion failure,
or vector-index insert failure), the pending queue is left exactly as it was,
so the caller may retry. -/
theorem claim_C9_sync_pending_queue (s : DBState) (env : SyncEnv) :
    ((syncLocked s env).2 = none → (syncLocked s env).1.pendingLogs = []) ∧
    ((syncLocked s env).2 ≠ none → (syncLocked s env).1.pendingLogs = s.pendingLogs) :=
  syncLocked_pending s env

/-- Witness for C9: a concrete failing sync (vector-index insert failure)
leaves the one-record queue untouched. -/
theorem claim_C9_sync_pending_queue_witness :
    (syncLocked c1state envInsertFail).1.pendingLogs = c1state.pendingLogs :=
  (claim_C9_sync_pending_queue c1state envInsertFail).2 (by decide)

/-- C1 (code bug): after Phase B applied a record's attributes and Phase C
(vector-index insert) fails, `rollbackFilter` is supposed to `Remove` every
entry Phase B inserted, but `common.ToInt64` unconditionally returns
`(0, false)`, so `rollbackFilter` is the identity on the filter index and the
batch's entries survive the failed commit: concretely, after the failed sync
of the batch `[c1rec]` the filter index still maps the attribute `(cat, 1)`
to the record's ID 7. -/
theorem claim_C1_rollback_filter_is_noop :
    (∀ (idx : IntFilterIndex) (records : List WALRecordData),
        rollbackFilter idx records = idx) ∧
    (syncLocked c1state envInsertFail).2 = some .insertFail ∧
    getSet (syncLocked c1state envInsertFail).1.filterIndex catKey 1 = {7} :=
  ⟨rollbackFilter_eq, by decide, by decide⟩

/-- C5 (code bug): the flat wrapper treats a non-nil but empty identifier
restriction as an unrestricted search (its guard checks `IsEmpty`), but the
HNSW wrapper converts even an empty restriction into a faiss selector, so an
empty restriction returns the padded invalid result rather than the
unrestricted one: on an index holding label 1, an empty-restriction search
returns label -1 while the unrestricted search returns label 1 — the repo's
own `TestHNSWSearchWithEmptyFilter` expects the unrestricted behaviour. -/
theorem claim_C5_empty_restriction :
    (∀ (entries : List (Int × List Int)) (q : List Int) (k : Nat),
        FlatSearch entries ⟨q, some ∅⟩ k = FlatSearch entries ⟨q, none⟩ k) ∧
    HNSWSearch c5entries ⟨[0], some ∅⟩ 1 ≠ HNSWSearch c5entries ⟨[0], none⟩ 1 := by
  constructor
  · intro entries q k
    simp [FlatSearch, IdFilterIsEmpty]
  · decide

/-- Counterexample to C6: a `Write` whose encoding fails (the doc contains a
value `json.Marshal` rejects) still consumes a log ID: the counter moves from
0 to 1 while no record was successfully encoded (the pending queue stays
empty). -/
theorem claim_C6_counterexample :
    (Write emptyState env0 c6args false).2 = some .encodeFail ∧
    (Write emptyState env0 c6args false).1.counter = 1 ∧
    (Write emptyState env0 c6args false).1.pendingLogs.length = 0 := by
  refine ⟨by decide, by decide, by decide⟩

/-- Counterexample to C3: on a WAL file holding a single byte — not a
decodable record, so the decoded prefix is empty — `Restore` returns success
without truncating the file: afterwards the file still holds its one byte. -/
theorem claim_C3_counterexample :
    Restore c3state env0 enc1 = (c3state, none) ∧ c3state.fileBytes ≠ [] := by
  refine ⟨by decide, by decide⟩

/-- Counterexample to C4: a batch with one row, matching dimension 3 and
`len(Docs) = 0` is rejected by `Validate` (`len(Docs) != Rows`), so `Upsert`
returns a validation error, contrary to the claim that empty doc lists pass
validation. -/
theorem claim_C4_counterexample :
    Upsert emptyState env0 3 c4args = (emptyState, some (.validation .docs 0 1)) := by
  decide

/-- Scanning an empty byte stream yields no records. -/
theorem scanRecords_nil (e : BinaryWALEncoder) : scanRecords e [] = [] := rfl

/-- C3 (amended): a zero-byte WAL file is a no-op restore; when the file is
non-empty but no record decodes (e.g. the first record is corrupt), `Restore`
returns success leaving the file bytes and the pending queue untouched; when
at least one record decodes and the commit of the decoded prefix succeeds,
the pending queue is empty and the WAL file is truncated to zero bytes
afterwards (on commit failure the file is left intact for retry). -/
theorem claim_C3_restore_truncation (s : DBState) (env : SyncEnv)
    (e : BinaryWALEncoder) :
    (s.fileBytes = [] → Restore s env e = (s, none)) ∧
    (s.fileBytes ≠ [] → scanRecords e s.fileBytes = [] → Restore s env e = (s, none)) ∧
    (scanRecords e s.fileBytes ≠ [] → (Restore s env e).2 = none →
      (Restore s env e).1.pendingLogs = [] ∧ (Restore s env e).1.fileBytes = []) := by
  refine ⟨fun h => by simp [Restore, h], fun h1 h2 => ?_, fun h1 h2 => ?_⟩
  · unfold Restore
    rw [if_neg (by simpa using h1), if_pos (by simp [h2])]
  · by_cases hf : s.fileBytes.length = 0
    · rw [List.length_eq_zero.mp hf] at h1
      exact absurd (scanRecords_nil e) h1
    · by_cases hs : (scanRecords e s.fileBytes).length = 0
      · exact absurd (List.length_eq_zero.mp hs) h1
      · rcases heq : syncLocked { s with pendingLogs := scanRecords e s.fileBytes } env
          with ⟨s2, err2⟩
        unfold Restore at h2 ⊢
        rw [if_neg hf, if_neg hs, heq] at h2 ⊢
        cases err2 with
        | none =>
          have hp := (syncLocked_pending { s with pendingLogs := scanRecords e s.fileBytes } env).1
          rw [heq] at hp
          exact ⟨hp rfl, rfl⟩
        | some err => exact Option.noConfusion h2

/-- The per-row write loop of `Upsert` only ever produces WAL errors, never a
validation or dimension error. -/
theorem upsertLoop_no_validation (env : SyncEnv) (args : VdbUpsertArgs)
    (attrs : List (List (GoStr × AttrVal))) (idBase : Nat) (l : List Nat)
    (s : DBState) :
    isValidationErr (upsertLoop env args attrs idBase l s).2 = false := by
  induction l generalizing s with
  | nil => rfl
  | cons i rest ih =>
    unfold upsertLoop
    split
    next => rfl
    next s' heq => exact ih s'

/-- `Validate` accepts exactly the batches with `len(Docs) = Rows` and
`len(Attributes) ∈ {0, Rows}`. -/
theorem Validate_eq_none (args : VdbUpsertArgs) :
    Validate args = none ↔
      args.Docs.length = args.Vectors.Rows ∧
      (args.Attributes.length = 0 ∨ args.Attributes.length = args.Vectors.Rows) := by
  unfold Validate
  split
  next h => simp [h]
  next h =>
    split
    next h2 =>
      constructor
      · intro hc; exact Option.noConfusion hc
      · rintro ⟨hd, ha⟩
        exact absurd ha (by omega)
    next h2 =>
      constructor
      · intro _
        exact ⟨by omega, by omega⟩
      · intro _
        rfl

/-- C4 (amended): `Upsert` returns a validation or dimension error exactly
when the batch violates `len(Docs) = Rows` (an empty doc list passes only
when `Rows = 0`), `len(Attributes) ∈ {0, Rows}`, or `Cols = dim`. -/
theorem claim_C4_upsert_validation (s : DBState) (env : SyncEnv) (dim : Nat)
    (args : VdbUpsertArgs) :
    isValidationErr (Upsert s env dim args).2 = true ↔
      ¬(args.Docs.length = args.Vectors.Rows ∧
        (args.Attributes.length = 0 ∨ args.Attributes.length = args.Vectors.Rows) ∧
        args.Vectors.Cols = dim) := by
  unfold Upsert
  split
  next f got expected heq =>
    simp only [isValidationErr, true_iff]
    intro ⟨hd, ha, _⟩
    rw [(Validate_eq_none args).mpr ⟨hd, ha⟩] at heq
    exact Option.noConfusion heq
  next heq =>
    have hv := (Validate_eq_none args).mp heq
    split
    next hc =>
      simp only [isValidationErr, true_iff]
      intro ⟨_, _, hcc⟩
      exact hc hcc
    next hc =>
      rw [upsertLoop_no_validation]
      simp only [Bool.false_eq_true, false_iff, not_not]
      exact ⟨hv.1, hv.2, not_not.mp hc⟩

/-- Witness for C4 (amended): a batch with one row, one doc, no attributes
and matching dimension passes validation (the result is not a validation
error). -/
theorem claim_C4_upsert_validation_witness :
    isValidationErr (Upsert emptyState env0 1 ⟨⟨1, 1, [0]⟩, [[]], []⟩).2 = false := by
  have h := claim_C4_upsert_validation emptyState env0 1 ⟨⟨1, 1, [0]⟩, [[]], []⟩
  rcases hb : isValidationErr (Upsert emptyState env0 1 ⟨⟨1, 1, [0]⟩, [[]], []⟩).2 with _ | _
  · rfl
  · exact absurd ⟨by decide, by decide, by decide⟩ (h.mp hb)

/-- A non-eager `Write` always increments the counter by exactly one, whether
or not the encode succeeds. -/
theorem Write_false_counter (s : DBState) (env : SyncEnv) (a : WriteArgs) :
    (Write s env a false).1.counter = s.counter + 1 := by
  unfold Write
  split <;> rfl

/-- A non-eager `Write` appends to the pending queue exactly when the encode
succeeds. -/
theorem Write_false_pending (s : DBState) (env : SyncEnv) (a : WriteArgs) :
    (Write s env a false).1.pendingLogs.length =
      s.pendingLogs.length +
        (if (EncodeRecord ⟨WALVersion⟩ (writeRecord s a)).isSome then 1 else 0) := by
  unfold Write
  split
  next h => simp [h]
  next bs h => simp [h, writeState]

/-- Encoding succeeds exactly when both JSON marshals succeed. -/
theorem EncodeRecord_isSome (e : BinaryWALEncoder) (r : WALRecord) :
    (EncodeRecord e r).isSome =
      ((jsonMarshal r.doc).isSome && (jsonMarshal r.attributes).isSome) := by
  unfold EncodeRecord
  cases h1 : jsonMarshal r.doc <;> cases h2 : jsonMarshal r.attributes <;> simp

/-- C6 (amended): the WAL counter counts `Write` attempts, not successfully
encoded records: over any sequence of writes the counter advances by exactly
one per write (hence strictly monotonic, starting at 0 for a fresh database,
incremented before the log ID is allocated to the record); the pending queue
grows only for writes whose encode succeeded, so the counter equals the count
of successfully encoded records exactly when no encode failed — a `Write`
whose encoding fails does consume a log ID. -/
theorem claim_C6_log_id_counter (env : SyncEnv) (s : DBState) (ws : List WriteArgs) :
    (writeSeq env s ws).counter = s.counter + ws.length ∧
    ((∀ a ∈ ws, (jsonMarshal a.doc).isSome ∧ (jsonMarshal a.attributes).isSome) →
      (writeSeq env s ws).pendingLogs.length = s.pendingLogs.length + ws.length) ∧
    initCounter enc1 [] = 0 ∧ emptyState.counter = 0 := by
  induction ws generalizing s with
  | nil => exact ⟨rfl, fun _ => rfl, rfl, rfl⟩
  | cons a rest ih =>
    refine ⟨?_, fun hall => ?_, rfl, rfl⟩
    · show (writeSeq env (Write s env a false).1 rest).counter = s.counter + (a :: rest).length
      rw [(ih (Write s env a false).1).1, Write_false_counter]
      simp [Nat.add_assoc, Nat.add_comm 1]
    · show (writeSeq env (Write s env a false).1 rest).pendingLogs.length =
        s.pendingLogs.length + (a :: rest).length
      have henc : (EncodeRecord ⟨WALVersion⟩ (writeRecord s a)).isSome := by
        rw [EncodeRecord_isSome]
        have := hall a (List.mem_cons_self a rest)
        simp [this.1, this.2, writeRecord]
      rw [(ih (Write s env a false).1).2.1 (fun b hb => hall b (List.mem_cons_of_mem a hb)),
          Write_false_pending, henc]
      simp [Nat.add_assoc, Nat.add_comm 1]

/-- Witness for C6 (amended): two writes with marshalable data advance the
counter from 0 to 2 and leave two pending records. -/
theorem claim_C6_log_id_counter_witness :
    (writeSeq env0 emptyState [⟨1, [], [], []⟩, ⟨2, [], [], []⟩]).counter = 0 + 2 ∧
    (writeSeq env0 emptyState [⟨1, [], [], []⟩, ⟨2, [], [], []⟩]).pendingLogs.length = 0 + 2 := by
  have h := claim_C6_log_id_counter env0 emptyState [⟨1, [], [], []⟩, ⟨2, [], [], []⟩]
  exact ⟨h.1, h.2.1 (by decide)⟩

section AssocLemmas

variable {α β : Type} [DecidableEq α]

/-- Lookup in a cons whose head key matches. -/
theorem alGet_cons_pos (p : α × β) (rest : List (α × β)) (k : α) (h : p.1 = k) :
    alGet (p :: rest) k = some p.2 := by
  unfold alGet
  rw [List.find?_cons_of_pos _ (by simp [h])]
  rfl

/-- Lookup in a cons whose head key differs. -/
theorem alGet_cons_neg (p : α × β) (rest : List (α × β)) (k : α) (h : ¬ p.1 = k) :
    alGet (p :: rest) k = alGet rest k := by
  unfold alGet
  rw [List.find?_cons_of_neg _ (by simp [h])]

/-- Looking up the updated key returns the updated value; other keys are
unchanged. -/
theorem alGet_alUpdate (l : List (α × β)) (k k' : α) (f : Option β → β) :
    alGet (alUpdate l k f) k' =
      if k' = k then some (f (alGet l k)) else alGet l k' := by
  induction l with
  | nil =>
    by_cases h : k' = k
    · subst h
      rw [if_pos rfl]
      exact alGet_cons_pos (k', f none) [] k' rfl
    · rw [if_neg h]
      exact alGet_cons_neg (k, f none) [] k' (fun hc => h hc.symm)
  | cons p rest ih =>
    obtain ⟨a, b⟩ := p
    show alGet (if a = k then (a, f (some b)) :: rest
                else (a, b) :: alUpdate rest k f) k' = _
    by_cases hp : a = k
    · rw [if_pos hp]
      by_cases h : k' = k
      · rw [if_pos h,
            alGet_cons_pos (a, f (some b)) rest k' (hp.trans h.symm),
            alGet_cons_pos (a, b) rest k hp]
      · have hpk : ¬ a = k' := fun hc => h (hc.symm.trans hp)
        rw [if_neg h, alGet_cons_neg (a, f (some b)) rest k' hpk,
            alGet_cons_neg (a, b) rest k' hpk]
    · rw [if_neg hp]
      by_cases h : a = k'
      · have hk : ¬ k' = k := fun hc => hp (h.trans hc)
        rw [if_neg hk, alGet_cons_pos (a, b) (alUpdate rest k f) k' h,
            alGet_cons_pos (a, b) rest k' h]
      · rw [alGet_cons_neg (a, b) (alUpdate rest k f) k' h, ih,
            alGet_cons_neg (a, b) rest k' h, alGet_cons_neg (a, b) rest k hp]

/-- Erasing distributes over cons. -/
theorem alErase_cons (a : α) (b : β) (rest : List (α × β)) (k : α) :
    alErase ((a, b) :: rest) k =
      if a = k then alErase rest k else (a, b) :: alErase rest k := by
  unfold alErase
  rw [List.filter_cons]
  by_cases h : a = k
  · rw [if_pos h, if_neg (by simp [h])]
  · rw [if_neg h, if_pos (by simp [h])]

/-- Looking up the erased key fails; other keys are unchanged. -/
theorem alGet_alErase (l : List (α × β)) (k k' : α) :
    alGet (alErase l k) k' = if k' = k then none else alGet l k' := by
  induction l with
  | nil =>
    by_cases h : k' = k
    · rw [if_pos h]; rfl
    · rw [if_neg h]; rfl
  | cons p rest ih =>
    obtain ⟨a, b⟩ := p
    rw [alErase_cons]
    by_cases hp : a = k
    · rw [if_pos hp, ih]
      by_cases h : k' = k
      · rw [if_pos h, if_pos h]
      · rw [if_neg h, if_neg h,
            alGet_cons_neg (a, b) rest k' (fun hc => h (hc.symm.trans hp))]
    · rw [if_neg hp]
      by_cases h : a = k'
      · have hk : ¬ k' = k := fun hc => hp (h.trans hc)
        rw [if_neg hk, alGet_cons_pos (a, b) (alErase rest k) k' h,
            alGet_cons_pos (a, b) rest k' h]
      · rw [alGet_cons_neg (a, b) (alErase rest k) k' h, ih,
            alGet_cons_neg (a, b) rest k' h]

end AssocLemmas

/-- `Upsert` adds the truncated identifier under its field/value pair and
leaves every other pair's set unchanged. -/
theorem getSet_Upsert (idx : IntFilterIndex) (f' : GoStr) (v' : Int) (id : Nat)
    (f : GoStr) (v : Int) :
    getSet (idx.Upsert f' v' id) f v =
      if f' = f ∧ v' = v then insert (id % 2 ^ 32) (getSet idx f v)
      else getSet idx f v := by
  have hup : (idx.Upsert f' v' id).intFieldFilters =
      alUpdate idx.intFieldFilters f' (fun inner =>
        alUpdate (inner.getD []) v' fun bm => insert (id % 2 ^ 32) (bm.getD ∅)) := rfl
  unfold getSet
  rw [hup, alGet_alUpdate]
  by_cases hf : f = f'
  · rw [if_pos hf, Option.some_bind, alGet_alUpdate]
    by_cases hv : v = v'
    · rw [if_pos hv, Option.getD_some, if_pos ⟨hf.symm, hv.symm⟩, hf, hv]
      cases halg : alGet idx.intFieldFilters f' with
      | none => rfl
      | some inner => rfl
    · rw [if_neg hv, if_neg (fun hc => hv hc.2.symm), hf]
      cases halg : alGet idx.intFieldFilters f' with
      | none => rfl
      | some inner => rfl
  · rw [if_neg hf, if_neg (fun hc => hf hc.1.symm)]

/-- `Remove` erases the truncated identifier from its field/value pair's set
and leaves every other pair's set unchanged. -/
theorem getSet_Remove (idx : IntFilterIndex) (f' : GoStr) (v' : Int) (id : Nat)
    (f : GoStr) (v : Int) :
    getSet (idx.Remove f' v' id) f v =
      if f' = f ∧ v' = v then (getSet idx f v).erase (id % 2 ^ 32)
      else getSet idx f v := by
  cases htop : alGet idx.intFieldFilters f' with
  | none =>
    have hrem : idx.Remove f' v' id = idx := by
      unfold IntFilterIndex.Remove
      rw [htop]
    rw [hrem]
    by_cases hfv : f' = f ∧ v' = v
    · rw [if_pos hfv]
      have hz : getSet idx f v = ∅ := by
        unfold getSet
        rw [← hfv.1, htop]
        rfl
      rw [hz, Finset.erase_empty]
    · rw [if_neg hfv]
  | some inner =>
    cases hin : alGet inner v' with
    | none =>
      have hrem : idx.Remove f' v' id = idx := by
        unfold IntFilterIndex.Remove
        rw [htop]
        dsimp only
        rw [hin]
      rw [hrem]
      by_cases hfv : f' = f ∧ v' = v
      · rw [if_pos hfv]
        have hz : getSet idx f v = ∅ := by
          unfold getSet
          rw [← hfv.1, htop]
          simp only [Option.some_bind]
          rw [← hfv.2, hin]
          rfl
        rw [hz, Finset.erase_empty]
      · rw [if_neg hfv]
    | some bm =>
      have hbm : getSet idx f' v' = bm := by
        unfold getSet
        rw [htop]
        simp only [Option.some_bind]
        rw [hin]
        rfl
      by_cases hbe : bm.erase (id % 2 ^ 32) = ∅
      · have hrem : (idx.Remove f' v' id).intFieldFilters =
            alUpdate idx.intFieldFilters f' (fun _ => alErase inner v') := by
          unfold IntFilterIndex.Remove
          rw [htop]
          dsimp only
          rw [hin]
          dsimp only
          rw [if_pos hbe]
        unfold getSet
        rw [hrem, alGet_alUpdate]
        by_cases hf : f = f'
        · rw [if_pos hf, Option.some_bind, alGet_alErase]
          by_cases hv : v = v'
          · rw [if_pos hv, if_pos ⟨hf.symm, hv.symm⟩]
            have hgv : ((alGet idx.intFieldFilters f).bind fun i => alGet i v).getD ∅ = bm := by
              rw [hf, hv, htop]
              simp only [Option.some_bind]
              rw [hin]
              rfl
            rw [hgv, hbe]
            rfl
          · rw [if_neg hv, if_neg (fun hc => hv hc.2.symm), hf, htop]
            simp only [Option.some_bind]
        · rw [if_neg hf, if_neg (fun hc => hf hc.1.symm)]
      · have hrem : (idx.Remove f' v' id).intFieldFilters =
            alUpdate idx.intFieldFilters f'
              (fun _ => alUpdate inner v' fun _ => bm.erase (id % 2 ^ 32)) := by
          unfold IntFilterIndex.Remove
          rw [htop]
          dsimp only
          rw [hin]
          dsimp only
          rw [if_neg hbe]
        unfold getSet
        rw [hrem, alGet_alUpdate]
        by_cases hf : f = f'
        · rw [if_pos hf, Option.some_bind, alGet_alUpdate]
          by_cases hv : v = v'
          · rw [if_pos hv, Option.getD_some, if_pos ⟨hf.symm, hv.symm⟩]
            have hgv : ((alGet idx.intFieldFilters f).bind fun i => alGet i v).getD ∅ = bm := by
              rw [hf, hv, htop]
              simp only [Option.some_bind]
              rw [hin]
              rfl
            rw [hgv]
          · rw [if_neg hv, if_neg (fun hc => hv hc.2.symm), hf, htop]
            simp only [Option.some_bind]
        · rw [if_neg hf, if_neg (fun hc => hf hc.1.symm)]

/-- Running a command sequence changes each field/value set by the matching
specification steps. -/
theorem getSet_applyOps (ops : List FOp) (idx : IntFilterIndex) (f : GoStr)
    (v : Int) : getSet (applyOps ops idx) f v = specSetT f v ops (getSet idx f v) := by
  induction ops generalizing idx with
  | nil => rfl
  | cons op rest ih =>
    cases op with
    | up f' v' id =>
      show getSet (applyOps rest (idx.Upsert f' v' id)) f v = _
      rw [ih (idx.Upsert f' v' id)]
      unfold specSetT
      rw [List.foldl_cons]
      show _ = List.foldl (specStepT f v)
        (if f' = f ∧ v' = v then insert (id % 2 ^ 32) (getSet idx f v)
         else getSet idx f v) rest
      rw [getSet_Upsert]
    | rm f' v' id =>
      show getSet (applyOps rest (idx.Remove f' v' id)) f v = _
      rw [ih (idx.Remove f' v' id)]
      unfold specSetT
      rw [List.foldl_cons]
      show _ = List.foldl (specStepT f v)
        (if f' = f ∧ v' = v then (getSet idx f v).erase (id % 2 ^ 32)
         else getSet idx f v) rest
      rw [getSet_Remove]

/-- The `Equal` case of `Apply` is seed-union with the indexed set, in every
present/absent combination. -/
theorem Apply_Equal_eq (idx : IntFilterIndex) (f : GoStr) (v : Int)
    (seed : Bitmap) :
    idx.Apply ⟨f, .Equal, v⟩ seed = seed ∪ getSet idx f v := by
  unfold IntFilterIndex.Apply getSet
  cases h1 : alGet idx.intFieldFilters f with
  | none => simp
  | some inner =>
    cases h2 : alGet inner v with
    | none => simp [h2]
    | some bm => simp [h2]

/-- Truncated and untruncated spec sets agree when all identifiers fit in 32
bits. -/
theorem specSetT_eq_specSet (f : GoStr) (v : Int) (ops : List FOp)
    (h : ∀ op ∈ ops, opId op < 2 ^ 32) :
    specSetT f v ops ∅ = specSet f v ops := by
  unfold specSetT specSet
  have key : ∀ (l : List FOp) (init : Bitmap), (∀ op ∈ l, opId op < 2 ^ 32) →
      List.foldl (specStepT f v) init l = List.foldl (specStep f v) init l := by
    intro l
    induction l with
    | nil => intro init _; rfl
    | cons op rest ih =>
      intro init hall
      have hlt := hall op (List.mem_cons_self op rest)
      have hid : specStepT f v init op = specStep f v init op := by
        cases op with
        | up f1 v1 i1 =>
          simp only [opId] at hlt
          show (if f1 = f ∧ v1 = v then insert (i1 % 2 ^ 32) init else init) =
            (if f1 = f ∧ v1 = v then insert i1 init else init)
          rw [Nat.mod_eq_of_lt hlt]
        | rm f1 v1 i1 =>
          simp only [opId] at hlt
          show (if f1 = f ∧ v1 = v then init.erase (i1 % 2 ^ 32) else init) =
            (if f1 = f ∧ v1 = v then init.erase i1 else init)
          rw [Nat.mod_eq_of_lt hlt]
      rw [List.foldl_cons, List.foldl_cons, hid,
          ih (specStep f v init op) (fun o ho => hall o (List.mem_cons_of_mem op ho))]
  exact key ops ∅ h

/-- C8: for every sequence of filter-index `Upsert`/`Remove` operations whose
identifiers fit in 32 bits, `Apply` of `Equal(f, v)` with an empty seed
returns exactly the identifiers currently indexed under `(f, v)` — those
upserted with `(f, v)` and not since removed; and whenever the field or the
value is absent from the index, `Apply` returns (a clone of) the seed for any
seed.  (`Apply` goes through `Clone`/`roaring.Or`, which allocate; in this
functional model results are fresh values by construction, so the seed is
never mutated.) -/
theorem claim_C8_filter_apply_equal (ops : List FOp) (f : GoStr) (v : Int)
    (h : ∀ op ∈ ops, opId op < 2 ^ 32) :
    (applyOps ops NewIntFilterIndex).Apply ⟨f, .Equal, v⟩ ∅ = specSet f v ops ∧
    (∀ (idx : IntFilterIndex) (seed : Bitmap),
      alGet idx.intFieldFilters f = none → idx.Apply ⟨f, .Equal, v⟩ seed = seed) ∧
    (∀ (idx : IntFilterIndex) (seed : Bitmap) (inner : List (Int × Bitmap)),
      alGet idx.intFieldFilters f = some inner → alGet inner v = none →
      idx.Apply ⟨f, .Equal, v⟩ seed = seed) := by
  refine ⟨?_, ?_, ?_⟩
  · rw [Apply_Equal_eq, getSet_applyOps, Finset.empty_union]
    have hempty : getSet NewIntFilterIndex f v = ∅ := rfl
    rw [hempty]
    exact specSetT_eq_specSet f v ops h
  · intro idx seed habs
    show IntFilterIndex.Apply idx ⟨f, .Equal, v⟩ seed = seed
    unfold IntFilterIndex.Apply
    rw [habs]
  · intro idx seed inner htop hin
    show IntFilterIndex.Apply idx ⟨f, .Equal, v⟩ seed = seed
    unfold IntFilterIndex.Apply
    rw [htop]
    dsimp only
    rw [hin]

/-- Witness for C8: a concrete operation sequence — upsert 5 and 9 under
`(cat, 1)`, remove 5, upsert 7 under `(cat, 2)` — applied from the empty
index yields exactly the surviving identifier set for `Equal(cat, 1)`. -/
theorem claim_C8_filter_apply_equal_witness :
    (applyOps [.up catKey 1 5, .up catKey 1 9, .rm catKey 1 5, .up catKey 2 7]
        NewIntFilterIndex).Apply ⟨catKey, .Equal, 1⟩ ∅ =
      specSet catKey 1 [.up catKey 1 5, .up catKey 1 9, .rm catKey 1 5, .up catKey 2 7] :=
  (claim_C8_filter_apply_equal _ catKey 1 (by decide)).1

/-- Big-endian decode inverts the 4-byte encode below `2 ^ 32`. -/
theorem beVal_u32be (n : Nat) (h : n < 2 ^ 32) : beVal (u32be n) = n := by
  show ((((0 * 256 + n / 2 ^ 24 % 256) * 256 + n / 2 ^ 16 % 256) * 256 +
      n / 2 ^ 8 % 256) * 256 + n % 256) = n
  omega

/-- Big-endian decode inverts the 8-byte encode below `2 ^ 64`. -/
theorem beVal_u64be (n : Nat) (h : n < 2 ^ 64) : beVal (u64be n) = n := by
  show (((((((0 * 256 + n / 2 ^ 56 % 256) * 256 + n / 2 ^ 48 % 256) * 256 +
      n / 2 ^ 40 % 256) * 256 + n / 2 ^ 32 % 256) * 256 + n / 2 ^ 24 % 256) * 256 +
      n / 2 ^ 16 % 256) * 256 + n / 2 ^ 8 % 256) * 256 + n % 256 = n
  omega

/-- Reading a list's own length consumes it entirely. -/
theorem readN_all (l : List Nat) : readN l l.length = some (l, []) := by
  unfold readN
  rw [if_pos (Nat.le_refl _), List.take_length, List.drop_length]

/-- Reading exactly the first component of an append. -/
theorem readN_exact (a b : List Nat) (n : Nat) (h : n = a.length) :
    readN (a ++ b) n = some (a, b) := by
  subst h
  unfold readN
  rw [if_pos (by simp), List.take_left, List.drop_left]

/-- Reading at the decomposition point of a three-part append. -/
theorem readAt_decomp (l pre mid post : List Nat) (ofs n : Nat)
    (hl : l = pre ++ (mid ++ post)) (ho : ofs = pre.length) (hn : n = mid.length) :
    readAt l ofs n = some mid := by
  subst hl ho hn
  unfold readAt
  rw [if_pos (by simp), List.drop_left, List.take_left]

/-- The vector region is 4 bytes per component. -/
theorem flatMap_u32be_length (l : List Nat) : (l.flatMap u32be).length = 4 * l.length := by
  induction l with
  | nil => rfl
  | cons x rest ih =>
    rw [List.flatMap_cons, List.length_append, ih]
    show (u32be x).length + 4 * rest.length = 4 * (x :: rest).length
    show 4 + 4 * rest.length = 4 * (rest.length + 1)
    omega

/-- Parsing inverts the vector encoding when the components are 32-bit. -/
theorem parseVec_flatMap (v : List Nat) (rest : List Nat) (h : ∀ x ∈ v, x < 2 ^ 32) :
    parseVec v.length (v.flatMap u32be ++ rest) = v := by
  induction v generalizing rest with
  | nil => rfl
  | cons x xs ih =>
    show beVal (((u32be x ++ xs.flatMap u32be) ++ rest).take 4) ::
        parseVec xs.length (((u32be x ++ xs.flatMap u32be) ++ rest).drop 4) = x :: xs
    rw [List.append_assoc]
    rw [show (4 : Nat) = (u32be x).length from rfl, List.take_left, List.drop_left]
    rw [beVal_u32be x (h x (List.mem_cons_self x xs)),
        ih rest (fun y hy => h y (List.mem_cons_of_mem x hy))]

/-- Signed 64-bit decode inverts the two's-complement encode on the int64
range. -/
theorem u64ToInt_i64be (n : Int) (h1 : -(2 ^ 63) ≤ n) (h2 : n < 2 ^ 63) :
    u64ToInt (beVal (i64be n)) = n := by
  unfold i64be
  rw [beVal_u64be _ (by omega)]
  unfold u64ToInt
  split <;> omega

/-- Every marshaled value occupies at least its tag byte. -/
theorem marshalVal_length_pos (v : AttrVal) (vb : List Nat)
    (h : marshalVal v = some vb) : 1 ≤ vb.length := by
  cases v <;> simp [marshalVal] at h <;> simp [← h]

/-- Parsing inverts value marshaling (up to the float coercion of numbers). -/
theorem unmarshalVal_marshal (v : AttrVal) (vb rest : List Nat) (hwf : valWF v)
    (h : marshalVal v = some vb) :
    unmarshalVal (vb ++ rest) = some (canonVal v, rest) := by
  cases v with
  | aInt n =>
    obtain ⟨h1, h2⟩ := hwf
    obtain rfl : (1 :: i64be n) = vb := Option.some.inj h
    show unmarshalVal (1 :: (i64be n ++ rest)) = some (.aFloatWhole n, rest)
    unfold unmarshalVal
    dsimp only
    rw [if_pos rfl, readN_exact (i64be n) rest 8 rfl]
    show some (AttrVal.aFloatWhole (u64ToInt (beVal (i64be n))), rest) = _
    rw [u64ToInt_i64be n h1 h2]
  | aInt64 n =>
    obtain ⟨h1, h2⟩ := hwf
    obtain rfl : (1 :: i64be n) = vb := Option.some.inj h
    show unmarshalVal (1 :: (i64be n ++ rest)) = some (.aFloatWhole n, rest)
    unfold unmarshalVal
    dsimp only
    rw [if_pos rfl, readN_exact (i64be n) rest 8 rfl]
    show some (AttrVal.aFloatWhole (u64ToInt (beVal (i64be n))), rest) = _
    rw [u64ToInt_i64be n h1 h2]
  | aFloatWhole n =>
    obtain ⟨h1, h2⟩ := hwf
    obtain rfl : (1 :: i64be n) = vb := Option.some.inj h
    show unmarshalVal (1 :: (i64be n ++ rest)) = some (.aFloatWhole n, rest)
    unfold unmarshalVal
    dsimp only
    rw [if_pos rfl, readN_exact (i64be n) rest 8 rfl]
    show some (AttrVal.aFloatWhole (u64ToInt (beVal (i64be n))), rest) = _
    rw [u64ToInt_i64be n h1 h2]
  | aFloatFrac =>
    obtain rfl : [2] = vb := Option.some.inj h
    rfl
  | aStr s =>
    obtain rfl : (3 :: (u32be s.length ++ s)) = vb := Option.some.inj h
    show unmarshalVal (3 :: ((u32be s.length ++ s) ++ rest)) = some (.aStr s, rest)
    unfold unmarshalVal
    dsimp only
    rw [if_neg (by omega), if_neg (by omega), if_pos rfl, List.append_assoc,
        readN_exact (u32be s.length) (s ++ rest) 4 rfl]
    show (readN (s ++ rest) (beVal (u32be s.length))).map
        (fun p2 => (AttrVal.aStr p2.1, p2.2)) = _
    rw [beVal_u32be s.length hwf, readN_exact s rest s.length rfl]
    rfl
  | aOther => exact Option.noConfusion h

/-- The defining equation of the map serializer on a cons cell. -/
theorem jsonMarshal_cons (k : GoStr) (v : AttrVal) (rest : List (GoStr × AttrVal)) :
    jsonMarshal ((k, v) :: rest) =
      (marshalVal v).bind fun vb =>
        (jsonMarshal rest).map fun rb => u32be k.length ++ k ++ vb ++ rb := rfl

/-- The defining equation of the fuelled map parser on non-empty input. -/
theorem unmarshalGo_cons_eq (f : Nat) (b : List Nat) (hb : b ≠ []) :
    unmarshalGo (f + 1) b =
      (readN b 4).bind fun p1 =>
        (readN p1.2 (beVal p1.1)).bind fun p2 =>
          (unmarshalVal p2.2).bind fun pv =>
            (unmarshalGo f pv.2).map fun rest => (p2.1, pv.1) :: rest := by
  cases b with
  | nil => exact absurd rfl hb
  | cons t bs => rfl

/-- Parsing inverts map marshaling, canonicalizing the values, for any
sufficient fuel. -/
theorem unmarshalGo_marshal (m : List (GoStr × AttrVal)) :
    ∀ (b : List Nat) (fuel : Nat), mapWF m → jsonMarshal m = some b →
      b.length < fuel → unmarshalGo fuel b = some (canonMap m) := by
  induction m with
  | nil =>
    intro b fuel _ hmar _
    obtain rfl : ([] : List Nat) = b := Option.some.inj hmar
    cases fuel <;> rfl
  | cons kv rest ih =>
    obtain ⟨k, v⟩ := kv
    intro b fuel hwf hmar hfuel
    rw [jsonMarshal_cons] at hmar
    cases hvb : marshalVal v with
    | none => rw [hvb] at hmar; exact Option.noConfusion hmar
    | some vb =>
      cases hrb : jsonMarshal rest with
      | none => rw [hvb, hrb] at hmar; exact Option.noConfusion hmar
      | some rb =>
        rw [hvb, hrb] at hmar
        simp only [Option.some_bind, Option.map_some'] at hmar
        obtain rfl : u32be k.length ++ k ++ vb ++ rb = b := Option.some.inj hmar
        have hblen : (u32be k.length ++ k ++ vb ++ rb).length =
            4 + k.length + vb.length + rb.length := by
          simp [u32be]
          omega
        have hvb1 : 1 ≤ vb.length := marshalVal_length_pos v vb hvb
        cases fuel with
        | zero => omega
        | succ f =>
          rw [unmarshalGo_cons_eq f _ (by
            intro hc
            have h9 := congrArg List.length hc
            rw [hblen] at h9
            simp only [List.length_nil] at h9
            omega)]
          rw [show u32be k.length ++ k ++ vb ++ rb =
                u32be k.length ++ (k ++ (vb ++ rb)) by
              simp [List.append_assoc]]
          rw [readN_exact (u32be k.length) (k ++ (vb ++ rb)) 4 rfl]
          simp only [Option.some_bind]
          rw [beVal_u32be k.length (hwf (k, v) (List.mem_cons_self _ _)).1,
              readN_exact k (vb ++ rb) k.length rfl]
          simp only [Option.some_bind]
          rw [unmarshalVal_marshal v vb rb (hwf (k, v) (List.mem_cons_self _ _)).2 hvb]
          simp only [Option.some_bind]
          rw [ih rb f (fun q hq => hwf q (List.mem_cons_of_mem _ hq)) hrb (by
            rw [hblen] at hfuel
            omega)]
          rfl

/-- `json.Unmarshal` inverts `json.Marshal` on well-formed maps, up to the
number-to-float coercion. -/
theorem jsonUnmarshal_marshal (m : List (GoStr × AttrVal)) (b : List Nat)
    (hwf : mapWF m) (hmar : jsonMarshal m = some b) :
    jsonUnmarshal b = some (canonMap m) :=
  unmarshalGo_marshal m b (b.length + 1) hwf hmar (Nat.lt_succ_self _)

/-- Skipping a leading segment shifts a bounds-checked read. -/
theorem readAt_shift (a rest : List Nat) (ofs ofs' n : Nat)
    (h : ofs' = a.length + ofs) :
    readAt (a ++ rest) ofs' n = readAt rest ofs n := by
  subst h
  unfold readAt
  rw [List.length_append, List.drop_append]
  by_cases hb : ofs + n ≤ rest.length
  · rw [if_pos (by omega), if_pos hb]
  · rw [if_neg (by omega), if_neg hb]

/-- Reading a leading segment of an append in full. -/
theorem readAt_here (mid post : List Nat) (n : Nat) (h : n = mid.length) :
    readAt (mid ++ post) 0 n = some mid := by
  subst h
  unfold readAt
  rw [if_pos (by simp), List.drop_zero, List.take_left]

/-- Reading a whole list in full. -/
theorem readAt_all (l : List Nat) (n : Nat) (h : n = l.length) :
    readAt l 0 n = some l := by
  subst h
  unfold readAt
  rw [if_pos (by simp), List.drop_zero, List.take_length]

/-- The dimension field sits at offset 17 of the checksummed payload. -/
theorem recPayload_dim (r : WALRecord) (db ab : List Nat) :
    readAt (recPayload r db ab) 17 4 = some (u32be r.vector.length) := by
  have hR : recPayload r db ab =
      u64be r.logID ++ ([r.operation % 256] ++ (u64be r.vectorID ++
        (u32be r.vector.length ++ (r.vector.flatMap u32be ++
          (u32be db.length ++ (db ++ (u32be ab.length ++ ab))))))) := by
    simp [recPayload, List.append_assoc]
  rw [hR, readAt_shift (u64be r.logID) _ 9 17 4 rfl,
      readAt_shift [r.operation % 256] _ 8 9 4 rfl,
      readAt_shift (u64be r.vectorID) _ 0 8 4 rfl]
  exact readAt_here _ _ 4 rfl

/-- The doc-length field sits right after the vector region. -/
theorem recPayload_dl (r : WALRecord) (db ab : List Nat) :
    readAt (recPayload r db ab) (21 + 4 * r.vector.length) 4 =
      some (u32be db.length) := by
  have hR : recPayload r db ab =
      u64be r.logID ++ ([r.operation % 256] ++ (u64be r.vectorID ++
        (u32be r.vector.length ++ (r.vector.flatMap u32be ++
          (u32be db.length ++ (db ++ (u32be ab.length ++ ab))))))) := by
    simp [recPayload, List.append_assoc]
  rw [hR,
      readAt_shift (u64be r.logID) _ (13 + 4 * r.vector.length) _ 4
        (by show _ = 8 + _; omega),
      readAt_shift [r.operation % 256] _ (12 + 4 * r.vector.length) _ 4
        (by show _ = 1 + _; omega),
      readAt_shift (u64be r.vectorID) _ (4 + 4 * r.vector.length) _ 4
        (by show _ = 8 + _; omega),
      readAt_shift (u32be r.vector.length) _ (4 * r.vector.length) _ 4
        (by show _ = 4 + _; omega),
      readAt_shift (r.vector.flatMap u32be) _ 0 _ 4
        (by rw [flatMap_u32be_length]; omega)]
  exact readAt_here _ _ 4 rfl

/-- The attribute-length field sits right after the doc region. -/
theorem recPayload_al (r : WALRecord) (db ab : List Nat) :
    readAt (recPayload r db ab) (25 + 4 * r.vector.length + db.length) 4 =
      some (u32be ab.length) := by
  have hR : recPayload r db ab =
      u64be r.logID ++ ([r.operation % 256] ++ (u64be r.vectorID ++
        (u32be r.vector.length ++ (r.vector.flatMap u32be ++
          (u32be db.length ++ (db ++ (u32be ab.length ++ ab))))))) := by
    simp [recPayload, List.append_assoc]
  rw [hR,
      readAt_shift (u64be r.logID) _ (17 + 4 * r.vector.length + db.length) _ 4
        (by show _ = 8 + _; omega),
      readAt_shift [r.operation % 256] _ (16 + 4 * r.vector.length + db.length) _ 4
        (by show _ = 1 + _; omega),
      readAt_shift (u64be r.vectorID) _ (8 + 4 * r.vector.length + db.length) _ 4
        (by show _ = 8 + _; omega),
      readAt_shift (u32be r.vector.length) _ (4 + 4 * r.vector.length + db.length) _ 4
        (by show _ = 4 + _; omega),
      readAt_shift (r.vector.flatMap u32be) _ (4 + db.length) _ 4
        (by rw [flatMap_u32be_length]; omega),
      readAt_shift (u32be db.length) _ db.length _ 4
        (by show _ = 4 + _; omega),
      readAt_shift db _ 0 db.length 4 (by omega)]
  exact readAt_here _ _ 4 rfl

/-- Parsing the checksummed payload recovers every field (the doc and
attribute maps in canonical unmarshaled form, supplied here as the parses of
their marshaled bytes). -/
theorem parsePayload_recPayload (version : GoStr) (r : WALRecord)
    (db ab : List Nat) (D A : List (GoStr × AttrVal))
    (hlid : r.logID < 2 ^ 64) (hvid : r.vectorID < 2 ^ 64) (hop : r.operation < 256)
    (hvec : ∀ x ∈ r.vector, x < 2 ^ 32) (hdim : r.vector.length < 2 ^ 32)
    (hdb : db.length < 2 ^ 32) (hab : ab.length < 2 ^ 32)
    (hud : jsonUnmarshal db = some D) (hua : jsonUnmarshal ab = some A) :
    parsePayload version (recPayload r db ab) = some
      { logID := r.logID, version := version, operation := r.operation,
        vectorID := r.vectorID, vector := r.vector, doc := D, attributes := A } := by
  have hR : recPayload r db ab =
      u64be r.logID ++ ([r.operation % 256] ++ (u64be r.vectorID ++
        (u32be r.vector.length ++ (r.vector.flatMap u32be ++
          (u32be db.length ++ (db ++ (u32be ab.length ++ ab))))))) := by
    simp [recPayload, List.append_assoc]
  have e1 : readAt (recPayload r db ab) 0 8 = some (u64be r.logID) := by
    rw [hR]
    exact readAt_here _ _ 8 rfl
  have e2 : readAt (recPayload r db ab) 8 1 = some [r.operation % 256] := by
    rw [hR, readAt_shift (u64be r.logID) _ 0 8 1 rfl]
    exact readAt_here _ _ 1 rfl
  have e3 : readAt (recPayload r db ab) 9 8 = some (u64be r.vectorID) := by
    rw [hR, readAt_shift (u64be r.logID) _ 1 9 8 rfl,
        readAt_shift [r.operation % 256] _ 0 1 8 rfl]
    exact readAt_here _ _ 8 rfl
  have e4 : readAt (recPayload r db ab) 17 4 = some (u32be r.vector.length) := by
    rw [hR, readAt_shift (u64be r.logID) _ 9 17 4 rfl,
        readAt_shift [r.operation % 256] _ 8 9 4 rfl,
        readAt_shift (u64be r.vectorID) _ 0 8 4 rfl]
    exact readAt_here _ _ 4 rfl
  have e5 : readAt (recPayload r db ab) 21 (4 * r.vector.length) =
      some (r.vector.flatMap u32be) := by
    rw [hR, readAt_shift (u64be r.logID) _ 13 21 _ rfl,
        readAt_shift [r.operation % 256] _ 12 13 _ rfl,
        readAt_shift (u64be r.vectorID) _ 4 12 _ rfl,
        readAt_shift (u32be r.vector.length) _ 0 4 _ rfl]
    exact readAt_here _ _ _ (flatMap_u32be_length r.vector).symm
  have e6 : readAt (recPayload r db ab) (21 + 4 * r.vector.length) 4 =
      some (u32be db.length) := by
    rw [hR,
        readAt_shift (u64be r.logID) _ (13 + 4 * r.vector.length) _ 4
          (by show _ = 8 + _; omega),
        readAt_shift [r.operation % 256] _ (12 + 4 * r.vector.length) _ 4
          (by show _ = 1 + _; omega),
        readAt_shift (u64be r.vectorID) _ (4 + 4 * r.vector.length) _ 4
          (by show _ = 8 + _; omega),
        readAt_shift (u32be r.vector.length) _ (4 * r.vector.length) _ 4
          (by show _ = 4 + _; omega),
        readAt_shift (r.vector.flatMap u32be) _ 0 _ 4
          (by rw [flatMap_u32be_length]; omega)]
    exact readAt_here _ _ 4 rfl
  have e7 : readAt (recPayload r db ab) (25 + 4 * r.vector.length) db.length =
      some db := by
    rw [hR,
        readAt_shift (u64be r.logID) _ (17 + 4 * r.vector.length) _ _
          (by show _ = 8 + _; omega),
        readAt_shift [r.operation % 256] _ (16 + 4 * r.vector.length) _ _
          (by show _ = 1 + _; omega),
        readAt_shift (u64be r.vectorID) _ (8 + 4 * r.vector.length) _ _
          (by show _ = 8 + _; omega),
        readAt_shift (u32be r.vector.length) _ (4 + 4 * r.vector.length) _ _
          (by show _ = 4 + _; omega),
        readAt_shift (r.vector.flatMap u32be) _ 4 _ _
          (by rw [flatMap_u32be_length]; omega),
        readAt_shift (u32be db.length) _ 0 4 _ (by rfl)]
    exact readAt_here _ _ _ rfl
  have e8 : readAt (recPayload r db ab) (25 + 4 * r.vector.length + db.length) 4 =
      some (u32be ab.length) := by
    rw [hR,
        readAt_shift (u64be r.logID) _ (17 + 4 * r.vector.length + db.length) _ 4
          (by show _ = 8 + _; omega),
        readAt_shift [r.operation % 256] _ (16 + 4 * r.vector.length + db.length) _ 4
          (by show _ = 1 + _; omega),
        readAt_shift (u64be r.vectorID) _ (8 + 4 * r.vector.length + db.length) _ 4
          (by show _ = 8 + _; omega),
        readAt_shift (u32be r.vector.length) _ (4 + 4 * r.vector.length + db.length) _ 4
          (by show _ = 4 + _; omega),
        readAt_shift (r.vector.flatMap u32be) _ (4 + db.length) _ 4
          (by rw [flatMap_u32be_length]; omega),
        readAt_shift (u32be db.length) _ db.length _ 4
          (by show _ = 4 + _; omega),
        readAt_shift db _ 0 db.length 4 (by omega)]
    exact readAt_here _ _ 4 rfl
  have e9 : readAt (recPayload r db ab) (29 + 4 * r.vector.length + db.length)
      ab.length = some ab := by
    rw [hR,
        readAt_shift (u64be r.logID) _ (21 + 4 * r.vector.length + db.length) _ _
          (by show _ = 8 + _; omega),
        readAt_shift [r.operation % 256] _ (20 + 4 * r.vector.length + db.length) _ _
          (by show _ = 1 + _; omega),
        readAt_shift (u64be r.vectorID) _ (12 + 4 * r.vector.length + db.length) _ _
          (by show _ = 8 + _; omega),
        readAt_shift (u32be r.vector.length) _ (8 + 4 * r.vector.length + db.length) _ _
          (by show _ = 4 + _; omega),
        readAt_shift (r.vector.flatMap u32be) _ (8 + db.length) _ _
          (by rw [flatMap_u32be_length]; omega),
        readAt_shift (u32be db.length) _ (4 + db.length) _ _
          (by show _ = 4 + _; omega),
        readAt_shift db _ 4 _ _ (by show _ = _ + 4; omega),
        readAt_shift (u32be ab.length) _ 0 4 _ rfl]
    exact readAt_all _ _ rfl
  have hbdim : beVal (u32be r.vector.length) = r.vector.length := beVal_u32be _ hdim
  have hbdl : beVal (u32be db.length) = db.length := beVal_u32be _ hdb
  have hbal : beVal (u32be ab.length) = ab.length := beVal_u32be _ hab
  have hpv : parseVec r.vector.length (r.vector.flatMap u32be) = r.vector := by
    have h := parseVec_flatMap r.vector [] hvec
    rwa [List.append_nil] at h
  unfold parsePayload
  rw [e1]
  simp only [Option.some_bind]
  rw [e2]
  simp only [Option.some_bind]
  rw [e3]
  simp only [Option.some_bind]
  rw [e4]
  simp only [Option.some_bind, hbdim]
  rw [e5]
  simp only [Option.some_bind]
  rw [e6]
  simp only [Option.some_bind, hbdl]
  rw [e7]
  simp only [Option.some_bind]
  rw [hud]
  simp only [Option.some_bind]
  rw [e8]
  simp only [Option.some_bind, hbal]
  rw [e9]
  simp only [Option.some_bind]
  rw [hua]
  simp only [Option.map_some', List.headD_cons]
  rw [beVal_u64be _ hlid, beVal_u64be _ hvid, hpv, Nat.mod_eq_of_lt hop]

/-- A 4-byte big-endian encoding is 4 bytes. -/
theorem u32be_length (n : Nat) : (u32be n).length = 4 := rfl

/-- An 8-byte big-endian encoding is 8 bytes. -/
theorem u64be_length (n : Nat) : (u64be n).length = 8 := rfl

/-- One CRC bit step keeps the register below `2 ^ 32`. -/
theorem crcStep_lt (c : Nat) (b : Bool) (h : c < 2 ^ 32) : crcStep c b < 2 ^ 32 := by
  unfold crcStep
  split
  · exact Nat.xor_lt_two_pow (by omega) (by norm_num [crcPoly])
  · omega

/-- The CRC register stays below `2 ^ 32` over any bit stream. -/
theorem crcBits_lt (bits : List Bool) (c : Nat) (h : c < 2 ^ 32) :
    crcBits c bits < 2 ^ 32 := by
  induction bits generalizing c with
  | nil => exact h
  | cons b rest ih => exact ih _ (crcStep_lt c b h)

/-- A CRC-32 checksum is a 32-bit value. -/
theorem crc32_lt (l : List Nat) : crc32 l < 2 ^ 32 := by
  unfold crc32
  exact Nat.xor_lt_two_pow (crcBits_lt _ _ (by norm_num)) (by norm_num)

/-- Length of the checksummed payload in terms of its variable parts. -/
theorem recPayload_length (r : WALRecord) (db ab : List Nat) :
    (recPayload r db ab).length =
      29 + 4 * r.vector.length + db.length + ab.length := by
  simp only [recPayload, List.length_append, flatMap_u32be_length, u32be_length,
    u64be_length, List.length_cons, List.length_nil]
  omega

/-- `DecodeRecord` on a well-assembled frame (length prefix, payload, matching
CRC) followed by trailing bytes consumes exactly the frame and parses the
payload. -/
theorem DecodeRecord_assembled (e' : BinaryWALEncoder) (P rest : List Nat)
    (h : P.length + 4 < 2 ^ 32) :
    DecodeRecord e' ((u32be (P.length + 4) ++ P ++ u32be (crc32 P)) ++ rest) =
      (parsePayload e'.version P).map fun r => (r, rest) := by
  have hshape : (u32be (P.length + 4) ++ P ++ u32be (crc32 P)) ++ rest =
      u32be (P.length + 4) ++ (P ++ (u32be (crc32 P) ++ rest)) := by
    simp [List.append_assoc]
  have h1 : readN ((u32be (P.length + 4) ++ P ++ u32be (crc32 P)) ++ rest) 4 =
      some (u32be (P.length + 4), P ++ (u32be (crc32 P) ++ rest)) := by
    rw [hshape, readN_exact (u32be (P.length + 4)) _ 4 rfl]
  have h3 : readN (P ++ (u32be (crc32 P) ++ rest)) (P.length + 4) =
      some (P ++ u32be (crc32 P), rest) := by
    rw [← List.append_assoc,
        readN_exact _ _ _ (by rw [List.length_append, u32be_length])]
  have hlen4 : (P ++ u32be (crc32 P)).length = P.length + 4 := by
    rw [List.length_append, u32be_length]
  have htake : (P ++ u32be (crc32 P)).take ((P ++ u32be (crc32 P)).length - 4)
      = P := by
    rw [hlen4, Nat.add_sub_cancel, List.take_left]
  have hdrop : (P ++ u32be (crc32 P)).drop ((P ++ u32be (crc32 P)).length - 4)
      = u32be (crc32 P) := by
    rw [hlen4, Nat.add_sub_cancel, List.drop_left]
  unfold DecodeRecord
  rw [h1]
  simp only [Option.some_bind]
  rw [beVal_u32be _ h, h3]
  simp only [Option.some_bind]
  rw [if_neg (by rw [hlen4]; omega : ¬(P ++ u32be (crc32 P)).length < 4)]
  rw [htake, hdrop, beVal_u32be _ (crc32_lt P), if_pos rfl]

/-- Decoding inverts encoding: any decoder accepts any encoder's output frame,
returning the record with the doc and attribute maps canonicalized by the JSON
trip and the version replaced by the decoder's own configured version. -/
theorem DecodeRecord_EncodeRecord (e e' : BinaryWALEncoder) (r : WALRecord)
    (bs rest : List Nat) (hwf : WFRecord r) (henc : EncodeRecord e r = some bs)
    (hsz : bs.length < 2 ^ 32 + 4) :
    DecodeRecord e' (bs ++ rest) = some
      ({ logID := r.logID, version := e'.version, operation := r.operation,
         vectorID := r.vectorID, vector := r.vector,
         doc := canonMap r.doc, attributes := canonMap r.attributes }, rest) := by
  obtain ⟨hlid, hvid, hop, hvec, hmd, hma⟩ := hwf
  unfold EncodeRecord at henc
  split at henc
  · rename_i db ab hd ha
    simp only [Option.some.injEq] at henc
    subst henc
    have hPlen : (recPayload r db ab).length =
        29 + 4 * r.vector.length + db.length + ab.length := recPayload_length r db ab
    simp only [List.length_append, u32be_length] at hsz
    have hP4 : (recPayload r db ab).length + 4 < 2 ^ 32 := by omega
    rw [DecodeRecord_assembled e' (recPayload r db ab) rest hP4,
        parsePayload_recPayload e'.version r db ab (canonMap r.doc)
          (canonMap r.attributes) hlid hvid hop hvec (by omega) (by omega) (by omega)
          (jsonUnmarshal_marshal _ _ hmd hd) (jsonUnmarshal_marshal _ _ hma ha)]
    rfl
  · exact absurd henc (by simp)

/-- An option known to be populated equals `some` of its default-read. -/
theorem some_getD_of_isSome {α : Type} (o : Option α) (d : α) (h : o.isSome = true) :
    o = some (o.getD d) := by
  cases o with
  | none => cases h
  | some v => rfl

/-- The empty map is trivially within the machine-integer domain. -/
theorem mapWF_nil : mapWF [] := by
  intro kv hkv
  cases hkv

/-- The one-entry string-attribute map is within the machine-integer domain. -/
theorem mapWF_c2w : mapWF [(catKey, .aStr [120])] := by
  intro kv hkv
  rw [List.mem_singleton] at hkv
  subst hkv
  exact ⟨by decide, (by decide : ([120] : List Nat).length < 2 ^ 32)⟩

/-- Unfolding one step of the fuelled scan. -/
theorem scanGo_succ (e : BinaryWALEncoder) (fuel : Nat) (bytes : List Nat) :
    scanGo e (fuel + 1) bytes =
      match DecodeRecord e bytes with
      | some (r, rest) => r :: scanGo e fuel rest
      | none => [] := rfl

/-- The scan of an exhausted stream is empty at any fuel. -/
theorem scanGo_empty (e : BinaryWALEncoder) (fuel : Nat) : scanGo e fuel [] = [] := by
  cases fuel with
  | zero => rfl
  | succ n => rfl

/-- Every field of a parsed payload record except the version is read from
the bytes; the version is the decoder's configured one. -/
theorem parsePayload_version (v : GoStr) (d : List Nat) (rec : WALRecord)
    (h : parsePayload v d = some rec) : rec.version = v := by
  unfold parsePayload at h
  simp only [Option.bind_eq_some, Option.map_eq_some'] at h
  obtain ⟨lidB, h1, opB, h2, vidB, h3, dimB, h4, vecB, h5, dlB, h6, docB, h7,
    doc, h8, alB, h9, attrB, h10, attrs, h11, hrec⟩ := h
  rw [← hrec]

/-- Whatever record `DecodeRecord` returns carries the decoder's configured
version. -/
theorem DecodeRecord_version (e' : BinaryWALEncoder) (bs : List Nat)
    (p : WALRecord × List Nat) (h : DecodeRecord e' bs = some p) :
    p.1.version = e'.version := by
  unfold DecodeRecord at h
  simp only [Option.bind_eq_some] at h
  obtain ⟨p1, h1, p2, h2, h3⟩ := h
  split at h3
  · exact absurd h3 (by simp)
  · split at h3
    · simp only [Option.map_eq_some'] at h3
      obtain ⟨rec, hr, hp⟩ := h3
      rw [← hp]
      exact parsePayload_version _ _ _ hr
    · exact absurd h3 (by simp)

/-- C10: the record's version string is never written to the byte stream
(replacing it changes nothing about the encoded bytes), and any record
`DecodeRecord` returns carries the decoding encoder's configured version —
so the decoded version is the decoder's, regardless of the encoded record's
`Version` field. -/
theorem claim_C10_version_not_persisted (e e' : BinaryWALEncoder) (r : WALRecord)
    (v v' : GoStr) (bs : List Nat)
    (henc : EncodeRecord e { r with version := v } = some bs) :
    EncodeRecord e { r with version := v' } = some bs ∧
    ∀ p, DecodeRecord e' bs = some p → p.1.version = e'.version := by
  constructor
  · exact henc
  · intro p hp
    exact DecodeRecord_version e' bs p hp

/-- Witness for C10: the concrete record `c2rec` encoded under version v0
yields the same bytes as under version v2, and the record decoded from those
bytes carries the decoder's configured version. -/
theorem claim_C10_version_not_persisted_witness :
    EncodeRecord enc1 { c2rec with version := [118, 50] } =
      some ((EncodeRecord enc1 { c2rec with version := [118, 48] }).getD []) ∧
    ∀ p, DecodeRecord enc1
        ((EncodeRecord enc1 { c2rec with version := [118, 48] }).getD []) = some p →
      p.1.version = enc1.version :=
  claim_C10_version_not_persisted enc1 enc1 c2rec [118, 48] [118, 50] _
    (some_getD_of_isSome _ _ (by rfl))

/-- Counterexample to C2: decoding the bytes of an encoded record does not in
general return the record itself — `c2rec` carries version v0, but the bytes
never store the version, so the decoder (configured with v1) returns a record
whose `Version` field differs from `c2rec`'s. -/
theorem claim_C2_counterexample :
    ∃ (e : BinaryWALEncoder) (r : WALRecord) (bs : List Nat),
      EncodeRecord e r = some bs ∧
      ∀ p, DecodeRecord e bs = some p → p.1 ≠ r := by
  have henc : EncodeRecord enc1 c2rec = some ((EncodeRecord enc1 c2rec).getD []) :=
    some_getD_of_isSome _ _ (by rfl)
  refine ⟨enc1, c2rec, (EncodeRecord enc1 c2rec).getD [], henc, ?_⟩
  intro p hp hcontra
  have hwf : WFRecord c2rec :=
    ⟨by decide, by decide, by decide, by decide, mapWF_nil, mapWF_nil⟩
  have hd := DecodeRecord_EncodeRecord enc1 enc1 c2rec _ [] hwf henc (by decide)
  rw [List.append_nil] at hd
  rw [hp] at hd
  injection hd with hd'
  rw [hd'] at hcontra
  exact absurd hcontra (by decide)

/-- C2 (amended): for a record within the machine-integer domain whose
`Version` equals the encoder's configured version and whose doc and attribute
maps are already in canonical JSON-decoded form, decoding the encoded bytes
returns exactly the record (and consumes the whole stream); in general the
decoded record differs from the original in the version field (set to the
decoder's) and in the doc/attribute values (JSON numbers come back as
floats). -/
theorem claim_C2_encode_decode (e : BinaryWALEncoder) (r : WALRecord)
    (bs : List Nat) (hwf : WFRecord r) (hv : r.version = e.version)
    (hcd : selfCanon r.doc) (hca : selfCanon r.attributes)
    (henc : EncodeRecord e r = some bs) (hsz : bs.length < 2 ^ 32 + 4) :
    DecodeRecord e bs = some (r, []) := by
  have hd := DecodeRecord_EncodeRecord e e r bs [] hwf henc hsz
  rw [List.append_nil] at hd
  rw [hd]
  unfold selfCanon at hcd hca
  rw [hcd, hca, ← hv]

/-- Witness for C2 (amended): the record `c2wrec` (version v1, a string
attribute) decodes back to itself from its own encoding. -/
theorem claim_C2_encode_decode_witness :
    DecodeRecord enc1 ((EncodeRecord enc1 c2wrec).getD []) = some (c2wrec, []) :=
  claim_C2_encode_decode enc1 c2wrec _
    ⟨by decide, by decide, by decide, by decide, mapWF_nil, mapWF_c2w⟩
    rfl rfl rfl (some_getD_of_isSome _ _ (by rfl)) (by decide)

/-- The WAL file of `c3wState` holds one well-assembled record, which decodes
to `c3wrec` and consumes the file. -/
theorem decode_c3w : DecodeRecord enc1 c3wState.fileBytes = some (c3wrec, []) := by
  have henc3 : EncodeRecord enc1 c3wrec = some c3wState.fileBytes :=
    some_getD_of_isSome (EncodeRecord enc1 c3wrec) [] (by rfl)
  have hwf3 : WFRecord c3wrec :=
    ⟨by decide, by decide, by decide, by decide, mapWF_nil, mapWF_nil⟩
  have hd := DecodeRecord_EncodeRecord enc1 enc1 c3wrec c3wState.fileBytes []
    hwf3 henc3 (by decide)
  rw [List.append_nil] at hd
  exact hd

/-- Scanning `c3wState`'s WAL file yields exactly the one record. -/
theorem scan_c3w : scanRecords enc1 c3wState.fileBytes = [c3wrec] := by
  show scanGo enc1 (c3wState.fileBytes.length + 1) c3wState.fileBytes = [c3wrec]
  rw [scanGo_succ, decode_c3w]
  dsimp only
  rw [scanGo_empty]

/-- Restoring from `c3wState` succeeds, empties the pending queue and
truncates the WAL file. -/
theorem restore_c3w :
    (Restore c3wState env0 enc1).2 = none ∧
    (Restore c3wState env0 enc1).1.pendingLogs = [] ∧
    (Restore c3wState env0 enc1).1.fileBytes = [] := by
  unfold Restore
  rw [if_neg (by decide : ¬c3wState.fileBytes.length = 0), scan_c3w,
      if_neg (by decide : ¬([c3wrec] : List WALRecord).length = 0)]
  exact ⟨rfl, rfl, rfl⟩

/-- Witness for C3 (amended), exercising all three regimes: an empty file is
a no-op; a one-byte (undecodable) file is left untouched with success; a file
holding one valid record restores successfully, empties the pending queue and
truncates the file. -/
theorem claim_C3_restore_truncation_witness :
    Restore emptyState env0 enc1 = (emptyState, none) ∧
    Restore c3state env0 enc1 = (c3state, none) ∧
    (Restore c3wState env0 enc1).1.pendingLogs = [] ∧
    (Restore c3wState env0 enc1).1.fileBytes = [] := by
  refine ⟨(claim_C3_restore_truncation emptyState env0 enc1).1 rfl,
          (claim_C3_restore_truncation c3state env0 enc1).2.1 (by decide) (by rfl),
          ?_, ?_⟩
  · exact ((claim_C3_restore_truncation c3wState env0 enc1).2.2
      (by rw [scan_c3w]; decide) restore_c3w.1).1
  · exact ((claim_C3_restore_truncation c3wState env0 enc1).2.2
      (by rw [scan_c3w]; decide) restore_c3w.1).2

/-- Flipping one bit of a number changes it. -/
theorem xor_pow_ne (v k : Nat) : v ^^^ 2 ^ k ≠ v := by
  intro h
  have h1 := congrArg (fun x => x.testBit k) h
  simp [Nat.testBit_xor, Nat.testBit_two_pow] at h1

/-- Reading back the byte just set at a position. -/
theorem getD_set_self (l : List Nat) (i v : Nat) (hi : i < l.length) :
    (l.set i v).getD i 0 = v := by
  rw [List.getD_eq_getElem?_getD, List.getElem?_set_self hi]
  rfl

/-- Flipping one bit of one byte changes the byte list. -/
theorem set_flip_ne (l : List Nat) (i k : Nat) (hi : i < l.length) :
    l.set i (l.getD i 0 ^^^ 2 ^ k) ≠ l := by
  intro h
  have h2 : (l.set i (l.getD i 0 ^^^ 2 ^ k)).getD i 0 = l.getD i 0 := by rw [h]
  rw [getD_set_self l i _ hi] at h2
  exact xor_pow_ne _ _ h2

/-- Every byte of a 4-byte big-endian encoding is below 256. -/
theorem u32be_mem_lt (n : Nat) : ∀ b ∈ u32be n, b < 256 := by
  intro b hb
  simp only [u32be, List.mem_cons, List.not_mem_nil, or_false] at hb
  rcases hb with rfl | rfl | rfl | rfl <;> omega

/-- Decoding 4 bytes big-endian and re-encoding gives back the bytes. -/
theorem u32be_beVal (l : List Nat) (h4 : l.length = 4) (hb : ∀ b ∈ l, b < 256) :
    u32be (beVal l) = l := by
  rcases l with _ | ⟨a, _ | ⟨b, _ | ⟨c, _ | ⟨d, _ | ⟨x, t⟩⟩⟩⟩⟩ <;> simp at h4
  have ha := hb a (by simp)
  have hb2 := hb b (by simp)
  have hc := hb c (by simp)
  have hd := hb d (by simp)
  have hbe : beVal [a, b, c, d] = (((0 * 256 + a) * 256 + b) * 256 + c) * 256 + d := rfl
  rw [hbe]
  have e1 : ((((0 * 256 + a) * 256 + b) * 256 + c) * 256 + d) / 2 ^ 24 % 256 = a := by omega
  have e2 : ((((0 * 256 + a) * 256 + b) * 256 + c) * 256 + d) / 2 ^ 16 % 256 = b := by omega
  have e3 : ((((0 * 256 + a) * 256 + b) * 256 + c) * 256 + d) / 2 ^ 8 % 256 = c := by omega
  have e4 : ((((0 * 256 + a) * 256 + b) * 256 + c) * 256 + d) % 256 = d := by omega
  simp only [u32be, e1, e2, e3, e4]

/-- The byte value at any position of a 4-byte big-endian encoding is below
256. -/
theorem u32be_getD_lt (n i : Nat) (hi : i < 4) : (u32be n).getD i 0 < 256 := by
  interval_cases i
  · exact (by omega : n / 2 ^ 24 % 256 < 256)
  · exact (by omega : n / 2 ^ 16 % 256 < 256)
  · exact (by omega : n / 2 ^ 8 % 256 < 256)
  · exact (by omega : n % 256 < 256)

/-- Flipping one bit of a 4-byte big-endian encoding changes the decoded
value. -/
theorem beVal_flip_ne (n i k : Nat) (hn : n < 2 ^ 32) (hi : i < 4) (hk : k < 8) :
    beVal ((u32be n).set i ((u32be n).getD i 0 ^^^ 2 ^ k)) ≠ n := by
  intro h
  have hlen : ((u32be n).set i ((u32be n).getD i 0 ^^^ 2 ^ k)).length = 4 := by
    rw [List.length_set, u32be_length]
  have hmem : ∀ b ∈ (u32be n).set i ((u32be n).getD i 0 ^^^ 2 ^ k), b < 256 := by
    intro b hbm
    rcases List.mem_or_eq_of_mem_set hbm with hmem2 | rfl
    · exact u32be_mem_lt n b hmem2
    · have h1 : (u32be n).getD i 0 < 256 := u32be_getD_lt n i hi
      have h2 : 2 ^ k < 256 := by
        calc 2 ^ k ≤ 2 ^ 7 := Nat.pow_le_pow_right (by omega) (by omega)
        _ < 256 := by omega
      exact Nat.xor_lt_two_pow (n := 8) h1 h2
  have hrt := u32be_beVal _ hlen hmem
  rw [h] at hrt
  exact set_flip_ne (u32be n) i k (by rw [u32be_length]; exact hi) hrt.symm

/-- `crcStep` is injective on 32-bit registers fed the same input bit. -/
theorem crcStep_injOn (c c' : Nat) (b : Bool) (hc : c < 2 ^ 32) (hc' : c' < 2 ^ 32)
    (h : crcStep c b = crcStep c' b) : c = c' := by
  unfold crcStep at h
  by_cases h1 : ((c.testBit 0).xor b) = true
  · by_cases h2 : ((c'.testBit 0).xor b) = true
    · rw [if_pos h1, if_pos h2] at h
      have hd : c / 2 = c' / 2 := by
        have h3 : c / 2 ^^^ crcPoly ^^^ crcPoly = c' / 2 ^^^ crcPoly ^^^ crcPoly := by
          rw [h]
        simpa [Nat.xor_assoc] using h3
      have hm : c % 2 = c' % 2 := by
        cases hbb : b with
        | false => rw [hbb] at h1 h2; simp at h1 h2; omega
        | true => rw [hbb] at h1 h2; simp at h1 h2; omega
      omega
    · rw [if_pos h1, if_neg h2] at h
      exfalso
      have hL : (c / 2 ^^^ crcPoly).testBit 31 = true := by
        rw [Nat.testBit_xor, Nat.testBit_lt_two_pow (show c / 2 < 2 ^ 31 by omega)]
        decide
      rw [h, Nat.testBit_lt_two_pow (show c' / 2 < 2 ^ 31 by omega)] at hL
      exact Bool.noConfusion hL
  · by_cases h2 : ((c'.testBit 0).xor b) = true
    · rw [if_neg h1, if_pos h2] at h
      exfalso
      have hL : (c' / 2 ^^^ crcPoly).testBit 31 = true := by
        rw [Nat.testBit_xor, Nat.testBit_lt_two_pow (show c' / 2 < 2 ^ 31 by omega)]
        decide
      rw [← h, Nat.testBit_lt_two_pow (show c / 2 < 2 ^ 31 by omega)] at hL
      exact Bool.noConfusion hL
    · rw [if_neg h1, if_neg h2] at h
      have hm : c % 2 = c' % 2 := by
        cases hbb : b with
        | false => rw [hbb] at h1 h2; simp at h1 h2; omega
        | true => rw [hbb] at h1 h2; simp at h1 h2; omega
      omega

/-- A 32-bit register stepped on opposite input bits gives different
registers. -/
theorem crcStep_flip_ne (c : Nat) (x : Bool) (hc : c < 2 ^ 32) :
    crcStep c x ≠ crcStep c (!x) := by
  unfold crcStep
  have hx : ((c.testBit 0).xor !x) = !((c.testBit 0).xor x) := by
    cases x <;> cases hcb : c.testBit 0 <;> rfl
  rw [hx]
  by_cases h1 : ((c.testBit 0).xor x) = true
  · rw [if_pos h1, if_neg (by rw [h1]; decide)]
    intro h
    have hL : (c / 2 ^^^ crcPoly).testBit 31 = true := by
      rw [Nat.testBit_xor, Nat.testBit_lt_two_pow (show c / 2 < 2 ^ 31 by omega)]
      decide
    rw [h, Nat.testBit_lt_two_pow (show c / 2 < 2 ^ 31 by omega)] at hL
    exact Bool.noConfusion hL
  · have h1' : ((c.testBit 0).xor x) = false := by
      cases hxx : ((c.testBit 0).xor x) with
      | false => rfl
      | true => exact absurd hxx h1
    rw [if_neg h1, if_pos (by rw [h1']; rfl)]
    intro h
    have hL : (c / 2 ^^^ crcPoly).testBit 31 = true := by
      rw [Nat.testBit_xor, Nat.testBit_lt_two_pow (show c / 2 < 2 ^ 31 by omega)]
      decide
    rw [← h, Nat.testBit_lt_two_pow (show c / 2 < 2 ^ 31 by omega)] at hL
    exact Bool.noConfusion hL

/-- Distinct 32-bit registers stay distinct over any common bit stream. -/
theorem crcBits_ne (bits : List Bool) (c c' : Nat) (hc : c < 2 ^ 32)
    (hc' : c' < 2 ^ 32) (hne : c ≠ c') : crcBits c bits ≠ crcBits c' bits := by
  induction bits generalizing c c' with
  | nil => exact hne
  | cons b rest ih =>
    exact ih (crcStep c b) (crcStep c' b) (crcStep_lt _ _ hc) (crcStep_lt _ _ hc')
      (fun hh => hne (crcStep_injOn c c' b hc hc' hh))

/-- Flipping bit `k` leaves every other bit unchanged. -/
theorem testBit_flip_eq (b k j : Nat) (hne : k ≠ j) :
    (b ^^^ 2 ^ k).testBit j = b.testBit j := by
  rw [Nat.testBit_xor, Nat.testBit_two_pow, decide_eq_false hne, Bool.xor_false]

/-- Flipping bit `k` negates exactly bit `k`. -/
theorem testBit_flip_self (b k : Nat) : (b ^^^ 2 ^ k).testBit k = !(b.testBit k) := by
  rw [Nat.testBit_xor, Nat.testBit_two_pow, decide_eq_true rfl, Bool.xor_true]

/-- Flipping bit `k` of a byte flips exactly that entry of its LSB-first bit
list. -/
theorem byteBits_flip (b k : Nat) (hk : k < 8) :
    byteBits (b ^^^ 2 ^ k) =
      (byteBits b).take k ++ (!(b.testBit k)) :: (byteBits b).drop (k + 1) := by
  interval_cases k
  · have hh : ([(b ^^^ 2 ^ 0).testBit 0, (b ^^^ 2 ^ 0).testBit 1, (b ^^^ 2 ^ 0).testBit 2, (b ^^^ 2 ^ 0).testBit 3, (b ^^^ 2 ^ 0).testBit 4, (b ^^^ 2 ^ 0).testBit 5, (b ^^^ 2 ^ 0).testBit 6, (b ^^^ 2 ^ 0).testBit 7] : List Bool) =
        [!(b.testBit 0), b.testBit 1, b.testBit 2, b.testBit 3, b.testBit 4, b.testBit 5, b.testBit 6, b.testBit 7] := by
      rw [testBit_flip_self b 0, testBit_flip_eq b 0 1 (by decide), testBit_flip_eq b 0 2 (by decide), testBit_flip_eq b 0 3 (by decide), testBit_flip_eq b 0 4 (by decide), testBit_flip_eq b 0 5 (by decide), testBit_flip_eq b 0 6 (by decide), testBit_flip_eq b 0 7 (by decide)]
    exact hh
  · have hh : ([(b ^^^ 2 ^ 1).testBit 0, (b ^^^ 2 ^ 1).testBit 1, (b ^^^ 2 ^ 1).testBit 2, (b ^^^ 2 ^ 1).testBit 3, (b ^^^ 2 ^ 1).testBit 4, (b ^^^ 2 ^ 1).testBit 5, (b ^^^ 2 ^ 1).testBit 6, (b ^^^ 2 ^ 1).testBit 7] : List Bool) =
        [b.testBit 0, !(b.testBit 1), b.testBit 2, b.testBit 3, b.testBit 4, b.testBit 5, b.testBit 6, b.testBit 7] := by
      rw [testBit_flip_self b 1, testBit_flip_eq b 1 0 (by decide), testBit_flip_eq b 1 2 (by decide), testBit_flip_eq b 1 3 (by decide), testBit_flip_eq b 1 4 (by decide), testBit_flip_eq b 1 5 (by decide), testBit_flip_eq b 1 6 (by decide), testBit_flip_eq b 1 7 (by decide)]
    exact hh
  · have hh : ([(b ^^^ 2 ^ 2).testBit 0, (b ^^^ 2 ^ 2).testBit 1, (b ^^^ 2 ^ 2).testBit 2, (b ^^^ 2 ^ 2).testBit 3, (b ^^^ 2 ^ 2).testBit 4, (b ^^^ 2 ^ 2).testBit 5, (b ^^^ 2 ^ 2).testBit 6, (b ^^^ 2 ^ 2).testBit 7] : List Bool) =
        [b.testBit 0, b.testBit 1, !(b.testBit 2), b.testBit 3, b.testBit 4, b.testBit 5, b.testBit 6, b.testBit 7] := by
      rw [testBit_flip_self b 2, testBit_flip_eq b 2 0 (by decide), testBit_flip_eq b 2 1 (by decide), testBit_flip_eq b 2 3 (by decide), testBit_flip_eq b 2 4 (by decide), testBit_flip_eq b 2 5 (by decide), testBit_flip_eq b 2 6 (by decide), testBit_flip_eq b 2 7 (by decide)]
    exact hh
  · have hh : ([(b ^^^ 2 ^ 3).testBit 0, (b ^^^ 2 ^ 3).testBit 1, (b ^^^ 2 ^ 3).testBit 2, (b ^^^ 2 ^ 3).testBit 3, (b ^^^ 2 ^ 3).testBit 4, (b ^^^ 2 ^ 3).testBit 5, (b ^^^ 2 ^ 3).testBit 6, (b ^^^ 2 ^ 3).testBit 7] : List Bool) =
        [b.testBit 0, b.testBit 1, b.testBit 2, !(b.testBit 3), b.testBit 4, b.testBit 5, b.testBit 6, b.testBit 7] := by
      rw [testBit_flip_self b 3, testBit_flip_eq b 3 0 (by decide), testBit_flip_eq b 3 1 (by decide), testBit_flip_eq b 3 2 (by decide), testBit_flip_eq b 3 4 (by decide), testBit_flip_eq b 3 5 (by decide), testBit_flip_eq b 3 6 (by decide), testBit_flip_eq b 3 7 (by decide)]
    exact hh
  · have hh : ([(b ^^^ 2 ^ 4).testBit 0, (b ^^^ 2 ^ 4).testBit 1, (b ^^^ 2 ^ 4).testBit 2, (b ^^^ 2 ^ 4).testBit 3, (b ^^^ 2 ^ 4).testBit 4, (b ^^^ 2 ^ 4).testBit 5, (b ^^^ 2 ^ 4).testBit 6, (b ^^^ 2 ^ 4).testBit 7] : List Bool) =
        [b.testBit 0, b.testBit 1, b.testBit 2, b.testBit 3, !(b.testBit 4), b.testBit 5, b.testBit 6, b.testBit 7] := by
      rw [testBit_flip_self b 4, testBit_flip_eq b 4 0 (by decide), testBit_flip_eq b 4 1 (by decide), testBit_flip_eq b 4 2 (by decide), testBit_flip_eq b 4 3 (by decide), testBit_flip_eq b 4 5 (by decide), testBit_flip_eq b 4 6 (by decide), testBit_flip_eq b 4 7 (by decide)]
    exact hh
  · have hh : ([(b ^^^ 2 ^ 5).testBit 0, (b ^^^ 2 ^ 5).testBit 1, (b ^^^ 2 ^ 5).testBit 2, (b ^^^ 2 ^ 5).testBit 3, (b ^^^ 2 ^ 5).testBit 4, (b ^^^ 2 ^ 5).testBit 5, (b ^^^ 2 ^ 5).testBit 6, (b ^^^ 2 ^ 5).testBit 7] : List Bool) =
        [b.testBit 0, b.testBit 1, b.testBit 2, b.testBit 3, b.testBit 4, !(b.testBit 5), b.testBit 6, b.testBit 7] := by
      rw [testBit_flip_self b 5, testBit_flip_eq b 5 0 (by decide), testBit_flip_eq b 5 1 (by decide), testBit_flip_eq b 5 2 (by decide), testBit_flip_eq b 5 3 (by decide), testBit_flip_eq b 5 4 (by decide), testBit_flip_eq b 5 6 (by decide), testBit_flip_eq b 5 7 (by decide)]
    exact hh
  · have hh : ([(b ^^^ 2 ^ 6).testBit 0, (b ^^^ 2 ^ 6).testBit 1, (b ^^^ 2 ^ 6).testBit 2, (b ^^^ 2 ^ 6).testBit 3, (b ^^^ 2 ^ 6).testBit 4, (b ^^^ 2 ^ 6).testBit 5, (b ^^^ 2 ^ 6).testBit 6, (b ^^^ 2 ^ 6).testBit 7] : List Bool) =
        [b.testBit 0, b.testBit 1, b.testBit 2, b.testBit 3, b.testBit 4, b.testBit 5, !(b.testBit 6), b.testBit 7] := by
      rw [testBit_flip_self b 6, testBit_flip_eq b 6 0 (by decide), testBit_flip_eq b 6 1 (by decide), testBit_flip_eq b 6 2 (by decide), testBit_flip_eq b 6 3 (by decide), testBit_flip_eq b 6 4 (by decide), testBit_flip_eq b 6 5 (by decide), testBit_flip_eq b 6 7 (by decide)]
    exact hh
  · have hh : ([(b ^^^ 2 ^ 7).testBit 0, (b ^^^ 2 ^ 7).testBit 1, (b ^^^ 2 ^ 7).testBit 2, (b ^^^ 2 ^ 7).testBit 3, (b ^^^ 2 ^ 7).testBit 4, (b ^^^ 2 ^ 7).testBit 5, (b ^^^ 2 ^ 7).testBit 6, (b ^^^ 2 ^ 7).testBit 7] : List Bool) =
        [b.testBit 0, b.testBit 1, b.testBit 2, b.testBit 3, b.testBit 4, b.testBit 5, b.testBit 6, !(b.testBit 7)] := by
      rw [testBit_flip_self b 7, testBit_flip_eq b 7 0 (by decide), testBit_flip_eq b 7 1 (by decide), testBit_flip_eq b 7 2 (by decide), testBit_flip_eq b 7 3 (by decide), testBit_flip_eq b 7 4 (by decide), testBit_flip_eq b 7 5 (by decide), testBit_flip_eq b 7 6 (by decide)]
    exact hh

/-- The bits of an appended byte list. -/
theorem bytesBits_append (a b : List Nat) :
    bytesBits (a ++ b) = bytesBits a ++ bytesBits b := by
  simp [bytesBits, List.flatMap_append]

/-- The bits of a byte cons. -/
theorem bytesBits_cons (x : Nat) (l : List Nat) :
    bytesBits (x :: l) = byteBits x ++ bytesBits l := by
  simp [bytesBits, List.flatMap_cons]

/-- The register after an appended bit stream. -/
theorem crcBits_append (c : Nat) (a b : List Bool) :
    crcBits c (a ++ b) = crcBits (crcBits c a) b := by
  unfold crcBits
  rw [List.foldl_append]

/-- The register after one consumed bit. -/
theorem crcBits_cons (c : Nat) (x : Bool) (l : List Bool) :
    crcBits c (x :: l) = crcBits (crcStep c x) l := rfl

/-- Flipping one bit of one byte of the input changes the CRC-32 checksum. -/
theorem crc32_flip_ne (P : List Nat) (j k : Nat) (hj : j < P.length) (hk : k < 8) :
    crc32 (P.set j (P.getD j 0 ^^^ 2 ^ k)) ≠ crc32 P := by
  intro h
  have hreg : crcBits 0xFFFFFFFF (bytesBits (P.set j (P.getD j 0 ^^^ 2 ^ k))) =
      crcBits 0xFFFFFFFF (bytesBits P) := by
    unfold crc32 at h
    have h3 : crcBits 0xFFFFFFFF (bytesBits (P.set j (P.getD j 0 ^^^ 2 ^ k))) ^^^
        0xFFFFFFFF ^^^ 0xFFFFFFFF =
        crcBits 0xFFFFFFFF (bytesBits P) ^^^ 0xFFFFFFFF ^^^ 0xFFFFFFFF := by
      rw [h]
    simpa [Nat.xor_assoc] using h3
  have hPd : P = P.take j ++ P.getD j 0 :: P.drop (j + 1) := by
    conv_lhs => rw [← List.take_append_drop j P]
    rw [List.drop_eq_getElem_cons hj, List.getD_eq_getElem?_getD,
        List.getElem?_eq_getElem hj]
    rfl
  have hset : P.set j (P.getD j 0 ^^^ 2 ^ k) =
      P.take j ++ (P.getD j 0 ^^^ 2 ^ k) :: P.drop (j + 1) := by
    rw [List.set_eq_take_append_cons_drop, if_pos hj]
  have hBd : byteBits (P.getD j 0) =
      (byteBits (P.getD j 0)).take k ++ (P.getD j 0).testBit k ::
        (byteBits (P.getD j 0)).drop (k + 1) := by
    have hk8 : k < (byteBits (P.getD j 0)).length := by
      show k < 8
      omega
    conv_lhs => rw [← List.take_append_drop k (byteBits (P.getD j 0))]
    rw [List.drop_eq_getElem_cons hk8]
    congr 2
    interval_cases k <;> rfl
  have hfin : crcBits 0xFFFFFFFF (bytesBits (P.set j (P.getD j 0 ^^^ 2 ^ k))) ≠
      crcBits 0xFFFFFFFF (bytesBits P) := by
    conv_rhs => rw [hPd]
    rw [hset, bytesBits_append, bytesBits_cons, bytesBits_append, bytesBits_cons,
        byteBits_flip _ k hk]
    conv_rhs => rw [hBd]
    simp only [List.append_assoc, List.cons_append]
    rw [crcBits_append, crcBits_append, crcBits_append, crcBits_append,
        crcBits_cons, crcBits_cons]
    apply crcBits_ne
    · exact crcStep_lt _ _ (crcBits_lt _ _ (crcBits_lt _ _ (by norm_num)))
    · exact crcStep_lt _ _ (crcBits_lt _ _ (crcBits_lt _ _ (by norm_num)))
    · have hb32 : crcBits (crcBits 0xFFFFFFFF (bytesBits (P.take j)))
          ((byteBits (P.getD j 0)).take k) < 2 ^ 32 :=
        crcBits_lt _ _ (crcBits_lt _ _ (by norm_num))
      exact (crcStep_flip_ne _ _ hb32).symm
  exact hfin hreg

/-- A successful bounds-checked read on a truncation also succeeds on the
full list, and stays within the truncation bound. -/
theorem readAt_take_some (l : List Nat) (n ofs m : Nat) (v : List Nat)
    (h : readAt (l.take n) ofs m = some v) :
    readAt l ofs m = some v ∧ ofs + m ≤ n := by
  unfold readAt at h ⊢
  rw [List.length_take] at h
  by_cases hb : ofs + m ≤ min n l.length
  · rw [if_pos hb] at h
    have hbn : ofs + m ≤ n := le_trans hb (Nat.min_le_left _ _)
    refine ⟨?_, hbn⟩
    rw [if_pos (by omega)]
    rw [← h]
    congr 1
    rw [List.drop_take, List.take_take, Nat.min_eq_left (by omega)]
  · rw [if_neg hb] at h
    exact absurd h (by simp)

/-- Parsing any strict truncation of a checksummed payload fails: the final
attribute read demands the full payload length. -/
theorem parsePayload_take_none (version : GoStr) (r : WALRecord) (db ab : List Nat)
    (n : Nat) (hn : n < (recPayload r db ab).length)
    (hdim : r.vector.length < 2 ^ 32) (hdb : db.length < 2 ^ 32)
    (hab : ab.length < 2 ^ 32) :
    parsePayload version ((recPayload r db ab).take n) = none := by
  cases hopt : parsePayload version ((recPayload r db ab).take n) with
  | none => rfl
  | some rec =>
    exfalso
    unfold parsePayload at hopt
    simp only [Option.bind_eq_some, Option.map_eq_some'] at hopt
    obtain ⟨lidB, h1, opB, h2, vidB, h3, dimB, h4, vecB, h5, dlB, h6, docB, h7,
      doc, h8, alB, h9, attrB, h10, attrs, h11, hrec⟩ := hopt
    obtain ⟨h4', hb4⟩ := readAt_take_some _ n 17 4 dimB h4
    have hdimB : dimB = u32be r.vector.length := by
      have hh := h4'.symm.trans (recPayload_dim r db ab)
      injection hh
    subst hdimB
    rw [beVal_u32be _ hdim] at h6 h7 h9 h10
    obtain ⟨h6', hb6⟩ := readAt_take_some _ n _ 4 dlB h6
    have hdlB : dlB = u32be db.length := by
      have hh := h6'.symm.trans (recPayload_dl r db ab)
      injection hh
    subst hdlB
    rw [beVal_u32be _ hdb] at h7 h9 h10
    obtain ⟨h9', hb9⟩ := readAt_take_some _ n _ 4 alB h9
    have halB : alB = u32be ab.length := by
      have hh := h9'.symm.trans (recPayload_al r db ab)
      injection hh
    subst halB
    rw [beVal_u32be _ hab] at h10
    obtain ⟨h10', hb10⟩ := readAt_take_some _ n _ _ attrB h10
    have hlen := recPayload_length r db ab
    omega

/-- Default-read of an append hitting the left part. -/
theorem getD_append_left (a b : List Nat) (i : Nat) (h : i < a.length) :
    (a ++ b).getD i 0 = a.getD i 0 := by
  rw [List.getD_eq_getElem?_getD, List.getD_eq_getElem?_getD,
      List.getElem?_append_left h]

/-- Default-read of an append hitting the right part. -/
theorem getD_append_right (a b : List Nat) (i : Nat) (h : a.length ≤ i) :
    (a ++ b).getD i 0 = b.getD (i - a.length) 0 := by
  rw [List.getD_eq_getElem?_getD, List.getD_eq_getElem?_getD,
      List.getElem?_append_right h]

/-- A corrupted 4-byte length header makes `DecodeRecord` fail: a larger
length hits end of stream, a smaller one truncates the payload so parsing
fails whatever the checksum comparison says. -/
theorem decode_flip_header (e' : BinaryWALEncoder) (r : WALRecord) (db ab : List Nat)
    (i k : Nat) (hi : i < 4) (hk : k < 8)
    (hP4 : (recPayload r db ab).length + 4 < 2 ^ 32)
    (hdim : r.vector.length < 2 ^ 32) (hdb : db.length < 2 ^ 32)
    (hab : ab.length < 2 ^ 32) :
    DecodeRecord e'
      ((u32be ((recPayload r db ab).length + 4)).set i
          ((u32be ((recPayload r db ab).length + 4)).getD i 0 ^^^ 2 ^ k) ++
        (recPayload r db ab ++ u32be (crc32 (recPayload r db ab)))) = none := by
  set A := (u32be ((recPayload r db ab).length + 4)).set i
    ((u32be ((recPayload r db ab).length + 4)).getD i 0 ^^^ 2 ^ k) with hA
  have hlenA : A.length = 4 := by
    rw [hA, List.length_set, u32be_length]
  have hne : beVal A ≠ (recPayload r db ab).length + 4 := by
    rw [hA]
    exact beVal_flip_ne _ i k hP4 hi hk
  have hlenPC : (recPayload r db ab ++ u32be (crc32 (recPayload r db ab))).length =
      (recPayload r db ab).length + 4 := by
    rw [List.length_append, u32be_length]
  unfold DecodeRecord
  rw [readN_exact A _ 4 hlenA.symm]
  simp only [Option.some_bind]
  by_cases hble : beVal A ≤ (recPayload r db ab).length + 4
  · have hlt : beVal A < (recPayload r db ab).length + 4 := lt_of_le_of_ne hble hne
    have hr2 : readN (recPayload r db ab ++ u32be (crc32 (recPayload r db ab)))
        (beVal A) =
        some ((recPayload r db ab ++ u32be (crc32 (recPayload r db ab))).take (beVal A),
          (recPayload r db ab ++ u32be (crc32 (recPayload r db ab))).drop (beVal A)) := by
      unfold readN
      rw [if_pos (by omega)]
    rw [hr2]
    simp only [Option.some_bind]
    rw [List.length_take, hlenPC]
    by_cases h4c : min (beVal A) ((recPayload r db ab).length + 4) < 4
    · rw [if_pos h4c]
    · rw [if_neg h4c]
      have hmin : min (beVal A) ((recPayload r db ab).length + 4) = beVal A := by omega
      rw [hmin, List.take_take]
      have htk : min (beVal A - 4) (beVal A) = beVal A - 4 := by omega
      rw [htk]
      have hta : beVal A - 4 ≤ (recPayload r db ab).length := by omega
      rw [List.take_append_of_le_length hta]
      rw [parsePayload_take_none e'.version r db ab (beVal A - 4) (by omega) hdim hdb hab]
      simp only [Option.map_none']
      exact ite_self none
  · have hr2 : readN (recPayload r db ab ++ u32be (crc32 (recPayload r db ab)))
        (beVal A) = none := by
      unfold readN
      rw [if_neg (by omega)]
    rw [hr2]
    rfl

/-- A corrupted payload byte makes `DecodeRecord` fail the checksum
comparison. -/
theorem decode_flip_payload (e' : BinaryWALEncoder) (P : List Nat) (j k : Nat)
    (hj : j < P.length) (hk : k < 8) (hP4 : P.length + 4 < 2 ^ 32) :
    DecodeRecord e' (u32be (P.length + 4) ++
      (P.set j (P.getD j 0 ^^^ 2 ^ k) ++ u32be (crc32 P))) = none := by
  have hlenP : (P.set j (P.getD j 0 ^^^ 2 ^ k)).length = P.length :=
    List.length_set P j _
  unfold DecodeRecord
  rw [readN_exact (u32be (P.length + 4)) _ 4 rfl]
  simp only [Option.some_bind]
  rw [beVal_u32be _ hP4]
  rw [show readN (P.set j (P.getD j 0 ^^^ 2 ^ k) ++ u32be (crc32 P)) (P.length + 4) =
      some (P.set j (P.getD j 0 ^^^ 2 ^ k) ++ u32be (crc32 P), []) from by
    rw [show P.length + 4 =
        (P.set j (P.getD j 0 ^^^ 2 ^ k) ++ u32be (crc32 P)).length from by
      rw [List.length_append, hlenP, u32be_length]]
    exact readN_all _]
  simp only [Option.some_bind]
  rw [if_neg (by rw [List.length_append, hlenP, u32be_length]; omega)]
  have hrl : (P.set j (P.getD j 0 ^^^ 2 ^ k) ++ u32be (crc32 P)).length - 4 =
      (P.set j (P.getD j 0 ^^^ 2 ^ k)).length := by
    rw [List.length_append, u32be_length]
    omega
  rw [hrl, List.take_left, List.drop_left, beVal_u32be _ (crc32_lt P)]
  rw [if_neg ?_]
  · exact Ne.symm (crc32_flip_ne P j k hj hk)

/-- A corrupted checksum byte makes `DecodeRecord` fail the checksum
comparison. -/
theorem decode_flip_checksum (e' : BinaryWALEncoder) (P : List Nat) (i k : Nat)
    (hi : i < 4) (hk : k < 8) (hP4 : P.length + 4 < 2 ^ 32) :
    DecodeRecord e' (u32be (P.length + 4) ++
      (P ++ (u32be (crc32 P)).set i ((u32be (crc32 P)).getD i 0 ^^^ 2 ^ k))) = none := by
  have hlenC : ((u32be (crc32 P)).set i ((u32be (crc32 P)).getD i 0 ^^^ 2 ^ k)).length
      = 4 := by
    rw [List.length_set, u32be_length]
  unfold DecodeRecord
  rw [readN_exact (u32be (P.length + 4)) _ 4 rfl]
  simp only [Option.some_bind]
  rw [beVal_u32be _ hP4]
  rw [show readN (P ++ (u32be (crc32 P)).set i ((u32be (crc32 P)).getD i 0 ^^^ 2 ^ k))
        (P.length + 4) =
      some (P ++ (u32be (crc32 P)).set i ((u32be (crc32 P)).getD i 0 ^^^ 2 ^ k), [])
    from by
    rw [show P.length + 4 =
        (P ++ (u32be (crc32 P)).set i ((u32be (crc32 P)).getD i 0 ^^^ 2 ^ k)).length
      from by rw [List.length_append, hlenC]]
    exact readN_all _]
  simp only [Option.some_bind]
  rw [if_neg (by rw [List.length_append, hlenC]; omega)]
  have hrl : (P ++ (u32be (crc32 P)).set i ((u32be (crc32 P)).getD i 0 ^^^ 2 ^ k)).length
      - 4 = P.length := by
    rw [List.length_append, hlenC]
    omega
  rw [hrl, List.take_left, List.drop_left]
  rw [if_neg ?_]
  · exact beVal_flip_ne (crc32 P) i k (crc32_lt P) hi hk

/-- C7: flipping any single bit of any byte of an encoded record — length
header, payload fields (log ID, operation, ids, vector, doc or attribute
bytes) or the trailing checksum — makes `DecodeRecord` fail on the mutated
bytes: a header flip either hits end of stream or truncates the payload so
field parsing fails (in Go, a short slice panics; the model folds the panic
and the corruption error into the same failure), a payload flip changes the
CRC-32 of the data, and a checksum flip changes the stored checksum; in no
case is a record returned. -/
theorem claim_C7_bit_flip_corruption (e e' : BinaryWALEncoder) (r : WALRecord)
    (bs : List Nat) (i k : Nat)
    (henc : EncodeRecord e r = some bs) (hsz : bs.length < 2 ^ 32 + 4)
    (hi : i < bs.length) (hk : k < 8) :
    DecodeRecord e' (bs.set i (bs.getD i 0 ^^^ 2 ^ k)) = none := by
  unfold EncodeRecord at henc
  split at henc
  · rename_i db ab hd ha
    simp only [Option.some.injEq] at henc
    subst henc
    have hPlen := recPayload_length r db ab
    simp only [List.length_append, u32be_length] at hi hsz
    have hP4 : (recPayload r db ab).length + 4 < 2 ^ 32 := by omega
    have hdim : r.vector.length < 2 ^ 32 := by omega
    have hdb : db.length < 2 ^ 32 := by omega
    have hab : ab.length < 2 ^ 32 := by omega
    rw [List.append_assoc]
    by_cases hiA : i < 4
    · rw [List.set_append_left _ _ (by rw [u32be_length]; exact hiA),
          getD_append_left _ _ _ (by rw [u32be_length]; exact hiA)]
      exact decode_flip_header e' r db ab i k hiA hk hP4 hdim hdb hab
    · rw [List.set_append_right _ _ (by rw [u32be_length]; omega),
          getD_append_right _ _ _ (by rw [u32be_length]; omega), u32be_length]
      by_cases hiP : i - 4 < (recPayload r db ab).length
      · rw [List.set_append_left _ _ hiP, getD_append_left _ _ _ hiP]
        exact decode_flip_payload e' (recPayload r db ab) (i - 4) k hiP hk hP4
      · rw [List.set_append_right _ _ (by omega), getD_append_right _ _ _ (by omega)]
        exact decode_flip_checksum e' (recPayload r db ab)
          (i - 4 - (recPayload r db ab).length) k (by omega) hk hP4
  · exact absurd henc (by simp)

/-- Witness for C7: flipping the lowest bit of byte 5 (inside the log-ID
field) of `c7rec`'s encoding makes decoding fail. -/
theorem claim_C7_bit_flip_corruption_witness :
    DecodeRecord enc1 (((EncodeRecord enc1 c7rec).getD []).set 5
      ((((EncodeRecord enc1 c7rec).getD []).getD 5 0) ^^^ 2 ^ 0)) = none :=
  claim_C7_bit_flip_corruption enc1 enc1 c7rec _ 5 0
    (some_getD_of_isSome _ _ (by rfl)) (by decide) (by decide) (by decide)

end VecDB
